import Mathlib

/-!
Verification of the tinyrange content-addressed build engine, package
planner, repository fetch loop and filesystem assembler against their
natural-language specification.  Each Go function referenced by a claim is
shallowly embedded as an executable Lean definition; external side effects
(hashing, HTTP, the definition codec, individual OS call failures) are
supplied by an environment record so that every control-flow path of the
source can be exercised.
-/

namespace TinyRange

/-- A flat model of the relevant slice of the on-disk store: an association
list from path to file contents.  `os.WriteFile` / `os.Create` replace or
insert, `os.Remove` deletes, `os.Rename` moves. -/
abbrev Fs := List (String × String)

def Fs.lookup : Fs → String → Option String
  | [], _ => none
  | (k, v) :: rest, p => if k = p then some v else Fs.lookup rest p

/-- `common.Exists` (a stat-based existence check). -/
def commonExists (fs : Fs) (p : String) : Bool :=
  (fs.lookup p).isSome

def Fs.write : Fs → String → String → Fs
  | [], p, c => [(p, c)]
  | (k, v) :: rest, p, c =>
    if k = p then (p, c) :: rest else (k, v) :: Fs.write rest p c

def Fs.remove : Fs → String → Fs
  | [], _ => []
  | (k, v) :: rest, p =>
    if k = p then Fs.remove rest p else (k, v) :: Fs.remove rest p

/-- `os.Rename src dst`: every call site in the embedded code renames a file
it has just written, so the source file is present; a no-op otherwise. -/
def Fs.rename (fs : Fs) (src dst : String) : Fs :=
  match fs.lookup src with
  | some c => (fs.remove src).write dst c
  | none => fs

/-- Association-list update with Go map semantics (replace or insert). -/
def assocPut : List (String × α) → String → α → List (String × α)
  | [], k, v => [(k, v)]
  | (k0, v0) :: rest, k, v =>
    if k0 = k then (k, v) :: rest else (k0, v0) :: assocPut rest k v

def assocGet : List (String × α) → String → Option α
  | [], _ => none
  | (k0, v0) :: rest, k => if k0 = k then some v0 else assocGet rest k

/-- Character-list splitting (the string-level splitting of the source,
expressed structurally over the character list). -/
def splitOnChar (c : Char) : List Char → List (List Char)
  | [] => [[]]
  | x :: xs =>
    if x = c then [] :: splitOnChar c xs
    else
      match splitOnChar c xs with
      | [] => [[x]]
      | t :: ts => (x :: t) :: ts

end TinyRange

namespace TinyRange.Database

/-! ## The build engine, from src/pkg/database/database.go -/

/-- Modelled from the spec: the `common.BuildStatus` status kinds.  The spec
(4.G) names the terminal states Built, Cached and Downloaded; the Go source
under src/ assigns only `common.BuildStatusBuilt` and
`common.BuildStatusCached` (the `common` constants themselves live outside
src/).  `unknown` is the zero value a fresh status record carries. -/
inductive BuildStatusKind where
  | unknown
  | built
  | cached
  | downloaded
  deriving DecidableEq, Repr

/-- `common.BuildStatus`: the observability record created per invocation. -/
structure BuildStatus where
  Tag : String
  Status : BuildStatusKind := .unknown
  deriving DecidableEq, Repr

/-- The engine configuration consumed by `PackageDatabase.Build`. -/
structure BuildConfig where
  buildDir : String
  distributionServer : String
  RebuildUserDefinitions : Bool
  deriving DecidableEq, Repr

/-- `common.BuildOptions`. -/
structure BuildOptions where
  AlwaysRebuild : Bool
  deriving DecidableEq, Repr

/-- The mutable parts of `PackageDatabase` that `Build` touches: the store
directory, the in-memory build cache (hash to returned file) and the
build-status map (keyed here by an opaque per-definition key standing in for
the `BuildDefinition` map key). -/
structure DbState where
  fs : Fs
  buildCache : List (String × String)
  buildStatuses : List (String × BuildStatus)
  deriving DecidableEq, Repr

/-- The behaviour of `def.Build(child)` for the definition being built.
`fails`: the builder returns an error, having possibly already written the
tmp file itself (`tmpWritten`).  `cachedNil`: the builder returns a nil
result.  `writer`: the builder returns a `BuildResult`; `hasCreatedOutput`
models `child.HasCreatedOutput()`, `tmpWritten` any bytes the builder itself
put at the tmp path, `writeFails` an error from `result.WriteResult`, and
`output` the bytes written on success. -/
inductive BuilderResult where
  | fails (msg : String) (tmpWritten : Option String)
  | cachedNil
  | writer (hasCreatedOutput : Bool) (tmpWritten : Option String)
      (writeFails : Bool) (output : String)
  deriving DecidableEq, Repr

/-- The environment of one `Build(ctx, def, opts)` invocation: everything the
definition itself contributes plus an injected outcome for each fallible OS
call in `Build` and `downloadFromDistributionServer`. -/
structure BuildEnv where
  defKey : String
  tag : String
  hashDef : Except String String
  marshal : Except String String
  needsBuild : Except String Bool
  redistributable : Bool
  httpGet : Except String (Nat × String)
  builder : BuilderResult
  writeDefFails : Bool
  dlCreateTmpFails : Bool
  dlCopyFails : Bool
  dlCloseFails : Bool
  dlRenameFails : Bool
  writeDlTagFails : Bool
  createTmpFails : Bool
  localCloseFails : Bool
  localRenameFails : Bool
  writeRedistTagFails : Bool
  deriving Repr

/-- `PackageDatabase.FilenameFromHash` (database.go:490). -/
def FilenameFromHash (cfg : BuildConfig) (hash suffix : String) : String :=
  cfg.buildDir ++ "/" ++ hash ++ suffix

/-- `PackageDatabase.updateBuildStatus` (database.go:483). -/
def updateBuildStatus (st : DbState) (key : String) (status : BuildStatus) : DbState :=
  { st with buildStatuses := assocPut st.buildStatuses key status }

/-- The side effect of a builder that wrote the tmp path itself. -/
def applyTmpWrite (fs : Fs) (tmpFilename : String) : Option String → Fs
  | some c => fs.write tmpFilename c
  | none => fs

/-- `PackageDatabase.downloadFromDistributionServer` (database.go:494-557).
Returns the `(bool, error)` pair together with the store contents after the
call.  Mirrors the source exactly: the copy failure removes the tmp file
(lines 533-537) while the close failure (539-541) and the rename failure
(543-545) return without removing it. -/
def downloadFromDistributionServer (env : BuildEnv) (cfg : BuildConfig)
    (hash : String) (fs : Fs) : Except String Bool × Fs :=
  if !env.redistributable then (.ok false, fs)
  else
    match env.httpGet with
    | .error e => (.error e, fs)
    | .ok (statusCode, body) =>
      if statusCode == 404 then (.ok false, fs)
      else if statusCode != 200 then (.error "bad status", fs)
      else
        let filename := FilenameFromHash cfg hash ".bin"
        let tmpFilename := filename ++ ".tmp"
        if env.dlCreateTmpFails then (.error "create tmp", fs)
        else
          let fs := fs.write tmpFilename ""
          if env.dlCopyFails then (.error "copy", fs.remove tmpFilename)
          else
            let fs := fs.write tmpFilename body
            if env.dlCloseFails then (.error "close", fs)
            else if env.dlRenameFails then (.error "rename", fs)
            else
              let fs := fs.rename tmpFilename filename
              let downloadedTag := FilenameFromHash cfg hash ".downloaded"
              if env.writeDlTagFails then (.error "write downloaded tag", fs)
              else (.ok true, fs.write downloadedTag "")

/-- Lines 719-748 of `PackageDatabase.Build`: rename the temporary file into
place (removing it if the rename fails), record the Built status, write the
`.redistributable` tag when applicable, and insert into the build cache. -/
def buildRename (env : BuildEnv) (cfg : BuildConfig)
    (hash filename tmpFilename : String) (status : BuildStatus)
    (st : DbState) : Except String String × DbState :=
  if env.localRenameFails then
    (.error "rename", { st with fs := st.fs.remove tmpFilename })
  else
    let st := { st with fs := st.fs.rename tmpFilename filename }
    let status := { status with Status := .built }
    let st := updateBuildStatus st env.defKey status
    if env.redistributable then
      if env.writeRedistTagFails then (.error "write redistributable tag", st)
      else
        let redistributableTag := FilenameFromHash cfg hash ".redistributable"
        let st := { st with fs := st.fs.write redistributableTag "" }
        (.ok filename, { st with buildCache := assocPut st.buildCache hash filename })
    else
      (.ok filename, { st with buildCache := assocPut st.buildCache hash filename })

/-- Lines 677-717 of `PackageDatabase.Build`: invoke `def.Build(child)` and
write the result.  A builder error returns immediately without removing any
tmp file the builder may already have created (lines 677-680); a nil result
reports Cached; otherwise the engine writes the tmp file itself unless
`child.HasCreatedOutput()` (line 693), removing the tmp file when
`WriteResult` or the close fails (lines 701-716). -/
def buildLocal (env : BuildEnv) (cfg : BuildConfig)
    (hash filename tmpFilename : String) (status : BuildStatus)
    (st : DbState) : Except String String × DbState :=
  match env.builder with
  | .fails msg tmpWritten =>
    (.error msg, { st with fs := applyTmpWrite st.fs tmpFilename tmpWritten })
  | .cachedNil =>
    let status := { status with Status := .cached }
    (.ok filename, updateBuildStatus st env.defKey status)
  | .writer hasCreatedOutput tmpWritten writeFails output =>
    let st := { st with fs := applyTmpWrite st.fs tmpFilename tmpWritten }
    if !hasCreatedOutput then
      if env.createTmpFails then (.error "create tmp", st)
      else
        let st := { st with fs := st.fs.write tmpFilename "" }
        if writeFails then
          (.error "write result", { st with fs := st.fs.remove tmpFilename })
        else
          let st := { st with fs := st.fs.write tmpFilename output }
          if env.localCloseFails then
            (.error "close", { st with fs := st.fs.remove tmpFilename })
          else buildRename env cfg hash filename tmpFilename status st
    else
      if writeFails then
        (.error "write result", { st with fs := st.fs.remove tmpFilename })
      else buildRename env cfg hash filename tmpFilename status st

/-- Lines 629-748 of `PackageDatabase.Build`: everything after the cached
check.  Marshal and persist the definition, try the distribution server
(which on success records the Built status, line 651, and writes the
`.redistributable` tag), otherwise fall through to the local build. -/
def buildTail (env : BuildEnv) (cfg : BuildConfig)
    (hash filename tmpFilename : String) (status : BuildStatus)
    (st : DbState) : Except String String × DbState :=
  match env.marshal with
  | .error e => (.error ("failed to marshal definition: " ++ e), st)
  | .ok defValue =>
    let defFilename := FilenameFromHash cfg hash ".def"
    if env.writeDefFails then (.error "failed to write definition", st)
    else
      let st := { st with fs := st.fs.write defFilename defValue }
      if cfg.distributionServer != "" then
        match downloadFromDistributionServer env cfg hash st.fs with
        | (.error e, fs) => (.error e, { st with fs := fs })
        | (.ok true, fs) =>
          let st := { st with fs := fs }
          let status := { status with Status := .built }
          let st := updateBuildStatus st env.defKey status
          if env.writeRedistTagFails then
            (.error "write redistributable tag", st)
          else
            let redistributableTag := FilenameFromHash cfg hash ".redistributable"
            let st := { st with fs := st.fs.write redistributableTag "" }
            (.ok filename, { st with buildCache := assocPut st.buildCache hash filename })
        | (.ok false, fs) =>
          buildLocal env cfg hash filename tmpFilename status { st with fs := fs }
      else
        buildLocal env cfg hash filename tmpFilename status st

/-- `PackageDatabase.Build` (database.go:559-749).  Hash the definition,
consult the in-memory build cache (before anything else, lines 567-569),
then run the cached-artifact check (lines 588-627) and fall through to
`buildTail`. -/
def Build (env : BuildEnv) (cfg : BuildConfig) (opts : BuildOptions)
    (st : DbState) : Except String String × DbState :=
  match env.hashDef with
  | .error e => (.error e, st)
  | .ok hash =>
    match assocGet st.buildCache hash with
    | some f => (.ok f, st)
    | none =>
      let status : BuildStatus := { Tag := env.tag }
      let filename := FilenameFromHash cfg hash ".bin"
      let downloadedTag := FilenameFromHash cfg hash ".downloaded"
      let tmpFilename := filename ++ ".tmp"
      if !opts.AlwaysRebuild && commonExists st.fs filename then
        match (if !commonExists st.fs downloadedTag then env.needsBuild
               else .ok cfg.RebuildUserDefinitions) with
        | .error e => (.error e, st)
        | .ok needsRebuild =>
          if !needsRebuild then
            let status := { status with Status := .cached }
            (.ok filename, updateBuildStatus st env.defKey status)
          else buildTail env cfg hash filename tmpFilename status st
      else buildTail env cfg hash filename tmpFilename status st

/-- The execution features under which the engine can leave the temporary
file behind: the download path failing at close or rename, a builder that
errors after itself writing the tmp path, or a builder that wrote the tmp
path without flagging created output while the engine re-create of the tmp
file fails. -/
def tmpLeak (env : BuildEnv) : Bool :=
  env.dlCloseFails || env.dlRenameFails ||
    (match env.builder with
     | .fails _ (some _) => true
     | .writer false (some _) _ _ => env.createTmpFails
     | _ => false)

/-- A sample fully succeeding environment for concrete runs. -/
def envOK : BuildEnv where
  defKey := "defkey"
  tag := "tag"
  hashDef := .ok "h1"
  marshal := .ok "DEF"
  needsBuild := .ok false
  redistributable := true
  httpGet := .ok (200, "BODY")
  builder := .writer false none false "OUT"
  writeDefFails := false
  dlCreateTmpFails := false
  dlCopyFails := false
  dlCloseFails := false
  dlRenameFails := false
  writeDlTagFails := false
  createTmpFails := false
  localCloseFails := false
  localRenameFails := false
  writeRedistTagFails := false

/-- A configuration with a distribution mirror set. -/
def cfgMirror : BuildConfig where
  buildDir := "b"
  distributionServer := "http://m"
  RebuildUserDefinitions := false

/-- A configuration without a distribution mirror. -/
def cfgLocal : BuildConfig where
  buildDir := "b"
  distributionServer := ""
  RebuildUserDefinitions := false

/-- An empty store. -/
def stEmpty : DbState where
  fs := []
  buildCache := []
  buildStatuses := []

/-! ### Definition reconstruction (C8) -/

/-- Modelled from the spec: the definition codec of the `hash` package
(outside src/): decoding of an on-disk `.def` file, and the content hash of
a definition (4.A).  Definitions themselves are abstracted to opaque
values. -/
structure DefCodec where
  UnmarshalDefinition : String → Except String String
  HashDefinition : String → String

/-- The state `GetDefinitionByHash` consults: the in-memory definition
database and the store directory. -/
structure DefState where
  defDb : List (String × String)
  fs : Fs

/-- `PackageDatabase.GetDefinitionByHash` (database.go:862-893): in-memory
lookup, else open `<hash>.def`, decode, and return the decoded definition.
In this model every stored value is a build definition, so the interface
casts of the source always succeed. -/
def GetDefinitionByHash (codec : DefCodec) (buildDir : String) (st : DefState)
    (hash : String) : Except String String :=
  match assocGet st.defDb hash with
  | some d => .ok d
  | none =>
    let filename := buildDir ++ "/" ++ hash ++ ".def"
    match st.fs.lookup filename with
    | none => .error "open failed"
    | some contents =>
      match codec.UnmarshalDefinition contents with
      | .error e => .error e
      | .ok d => .ok d

/-- A codec whose decode succeeds but whose re-encoded hash never equals
the filename hash. -/
def codecConst : DefCodec where
  UnmarshalDefinition := fun _ => .ok "D"
  HashDefinition := fun _ => "h2"

/-- A store holding a `.def` file for hash `h1` and nothing in memory. -/
def defStateBad : DefState where
  defDb := []
  fs := [("b/h1.def", "raw")]

end TinyRange.Database

namespace TinyRange.Db

/-! ## The package planner, from src/db/db.go

The planner functions (`InstallationPlan.addPackage`,
`PackageDatabase.Search`, `pickPackage`, `MakeInstallationPlan`) are
embedded from the source.  The `Package`, `PackageName`, `versionMatches`
and `Package.Matches` helpers belong to the same repository package but are
not under src/, so they are modelled from the spec (sections 3 and 4.E). -/

/-- Modelled from the spec: `PackageName` (section 3), the record used both
for package identities and for queries.  The planner source additionally
reads `Distribution` (db.go:1014), `Recommended` (db.go:1226) and
`Architecture` (db.go:1145) from it. -/
structure PackageName where
  Distribution : String := ""
  Namespace : String := ""
  Name : String := ""
  Version : String := ""
  Architecture : String := ""
  Tags : List String := []
  Recommended : Bool := false
  deriving DecidableEq, Repr, Inhabited

/-- Modelled from the spec: the short name is `namespace:name`, or `name`
when unnamespaced (section 3). -/
def PackageName.ShortName (n : PackageName) : String :=
  if n.Namespace == "" then n.Name else n.Namespace ++ ":" ++ n.Name

/-- Numeric parse of a version token: all digits and nonempty. -/
def charsToNat? (cs : List Char) : Option Nat :=
  if cs.isEmpty then none
  else if cs.all (fun c => '0' ≤ c && c ≤ '9') then
    some (cs.foldl (fun n c => n * 10 + (c.toNat - 48)) 0)
  else none

/-- Lexicographic character comparison. -/
def cmpChars : List Char → List Char → Ordering
  | [], [] => .eq
  | [], _ :: _ => .lt
  | _ :: _, [] => .gt
  | a :: as, b :: bs =>
    match compare a.toNat b.toNat with
    | .eq => cmpChars as bs
    | o => o

/-- Modelled from the spec (4.E): version tokens compare numerically when
both segments are numeric and lexicographically otherwise. -/
def tokenCmp (a b : List Char) : Ordering :=
  match charsToNat? a, charsToNat? b with
  | some x, some y => compare x y
  | _, _ => cmpChars a b

/-- Modelled from the spec (4.E): lexicographic comparison of dot-separated
version tokens. -/
def versionCompareChars (a b : List Char) : Ordering :=
  go (splitOnChar '.' a) (splitOnChar '.' b)
where
  go : List (List Char) → List (List Char) → Ordering
    | [], [] => .eq
    | [], _ :: _ => .lt
    | _ :: _, [] => .gt
    | x :: xs, y :: ys =>
      match tokenCmp x y with
      | .eq => go xs ys
      | o => o

/-- Modelled from the spec (4.E): one version-predicate atom.  An explicit
op prefix overrides, a trailing `*` matches by prefix, otherwise equality;
the empty predicate accepts every version. -/
def versionMatchesAtom (ver pat : List Char) : Bool :=
  if pat.isEmpty then true
  else if pat.take 2 = ['>', '='] then versionCompareChars ver (pat.drop 2) != .lt
  else if pat.take 1 = ['<'] then versionCompareChars ver (pat.drop 1) == .lt
  else if pat.take 1 = ['='] then versionCompareChars ver (pat.drop 1) == .eq
  else if pat.getLast? = some '*' then (pat.take (pat.length - 1)).isPrefixOf ver
  else versionCompareChars ver pat == .eq

/-- Modelled from the spec (4.E): `versionMatches` — comma separates
conjuncts, `|` alternation inside a conjunct. -/
def versionMatches (ver pat : String) : Bool :=
  (splitOnChar ',' pat.data).all fun conj =>
    (splitOnChar '|' conj).any fun alt => versionMatchesAtom ver.data alt

/-- Modelled from the spec (section 3): the fields of `Package` the planner
reads — its name and the dependency, alias and conflict shapes used by
`addPackage` (`Depends` and `Conflicts` are lists of option groups,
`Aliases` a flat list, exactly as iterated at db.go:1204, 1216, 1224). -/
structure Package where
  Name : PackageName
  Depends : List (List PackageName) := []
  Aliases : List PackageName := []
  Conflicts : List (List PackageName) := []
  deriving DecidableEq, Repr, Inhabited

/-- Modelled from the spec (4.E): `Package.Matches(query)` — names agree,
version satisfies the predicate, architecture matches or the query leaves it
empty, and the query tag set is a subset of the package tags. -/
def Package.Matches (pkg : Package) (query : PackageName) : Bool :=
  pkg.Name.Name == query.Name &&
  versionMatches pkg.Name.Version query.Version &&
  (query.Architecture == "" || pkg.Name.Architecture == query.Architecture) &&
  query.Tags.all fun t => pkg.Name.Tags.contains t

/-- `RepositoryFetcher`: the loaded package list of one repository. -/
structure RepositoryFetcher where
  Distro : String
  Packages : List Package
  deriving DecidableEq, Repr, Inhabited

/-- Modelled from the spec: a fetcher can match a query when the query
names no distribution or names this repository (db.go:1037 calls
`fetcher.Matches(query)`, defined outside src/). -/
def RepositoryFetcher.Matches (f : RepositoryFetcher) (q : PackageName) : Bool :=
  q.Distribution == "" || q.Distribution == f.Distro

/-- `SearchProvider`: an external search callback keyed by distribution. -/
structure SearchProvider where
  Distribution : String
  Search : PackageName → Nat → Except String (List Package)

/-- The slice of `db.PackageDatabase` the planner consults. -/
structure PackageDatabase where
  Fetchers : List RepositoryFetcher
  SearchProviders : List SearchProvider := []

/-- `QueryOptions` (db.go:49). -/
structure QueryOptions where
  ExcludeRecommends : Bool := false
  MaxResults : Nat := 0
  PreferArchitecture : String := ""
  deriving DecidableEq, Repr, Inhabited

/-- `PackageDatabase.searchWithProviders` (db.go:1012-1027). -/
def searchWithProviders (db : PackageDatabase) (query : PackageName)
    (opts : QueryOptions) : Except String (List Package) :=
  go db.SearchProviders
where
  go : List SearchProvider → Except String (List Package)
    | [] => .ok []
    | sp :: rest =>
      if query.Distribution != sp.Distribution then go rest
      else sp.Search query opts.MaxResults

/-- The inner loop of `PackageDatabase.Search` (db.go:1042-1049): append
matching packages, reporting `true` when the `MaxResults` break fired. -/
def searchPackages (query : PackageName) (opts : QueryOptions) :
    List Package → List Package → List Package × Bool
  | [], acc => (acc, false)
  | pkg :: rest, acc =>
    if pkg.Matches query then
      let acc := acc ++ [pkg]
      if opts.MaxResults != 0 && acc.length ≥ opts.MaxResults then (acc, true)
      else searchPackages query opts rest acc
    else searchPackages query opts rest acc

/-- The outer loop of `PackageDatabase.Search` (db.go:1034-1050). -/
def searchFetchers (query : PackageName) (opts : QueryOptions) :
    List RepositoryFetcher → List Package → List Package
  | [], acc => acc
  | f :: rest, acc =>
    if !f.Matches query then searchFetchers query opts rest acc
    else
      match searchPackages query opts f.Packages acc with
      | (acc2, true) => acc2
      | (acc2, false) => searchFetchers query opts rest acc2

/-- `PackageDatabase.Search` (db.go:1029-1057). -/
def PackageDatabase.Search (db : PackageDatabase) (query : PackageName)
    (opts : QueryOptions) : Except String (List Package) :=
  let ret := searchFetchers query opts db.Fetchers []
  if ret.length == 0 then searchWithProviders db query opts
  else .ok ret

/-- One edge of the dependency graph.  The source stores the bare pair
`[2]*Package{parent, child}` (db.go:1171 and 1194); `viaInstalled` is
verification instrumentation recording which of the two code sites created
the edge (`true` for the already-installed short-circuit at 1171). -/
structure Edge where
  parent : Option Package
  child : Package
  viaInstalled : Bool
  deriving DecidableEq, Repr

/-- `InstallationPlan` (db.go:1094-1101). -/
structure InstallationPlan where
  installed : List (String × String) := []
  installedPackages : List (String × Package) := []
  Packages : List Package := []
  queryOptions : QueryOptions := {}
  dependencyGraph : List Edge := []
  deriving Repr

/-- `InstallationPlan.checkName` (db.go:1103). -/
def InstallationPlan.checkName (plan : InstallationPlan) (name : PackageName) :
    Option String :=
  assocGet plan.installed name.ShortName

/-- `InstallationPlan.getInstalled` (db.go:1109). -/
def InstallationPlan.getInstalled (plan : InstallationPlan) (name : PackageName) :
    Option Package :=
  assocGet plan.installedPackages name.ShortName

/-- `InstallationPlan.addName` (db.go:1115). -/
def InstallationPlan.addName (plan : InstallationPlan) (pkg : Package)
    (name : PackageName) : InstallationPlan :=
  { plan with
    installedPackages := assocPut plan.installedPackages name.ShortName pkg
    installed := assocPut plan.installed name.ShortName name.Version }

/-- `InstallationPlan.pickPackage` (db.go:1137-1165).  The source recurses
once with `filtered = true` after restricting to the preferred
architecture; that recursive call returns the head of the restricted list,
which is inlined here. -/
def pickPackage (opts : QueryOptions) (query : PackageName)
    (results : List Package) : Package :=
  match results with
  | [] => { Name := {} }
  | r0 :: rest =>
    if rest.isEmpty then r0
    else if opts.PreferArchitecture != "" then
      match results.filter fun pkg =>
          pkg.Matches { query with Architecture := opts.PreferArchitecture } with
      | [] => r0
      | f0 :: _ => f0
    else r0

/-- The conflict scan of `addPackage` (db.go:1204-1212): the first conflict
option whose short name is installed with a matching version. -/
def findConflictInGroup (plan : InstallationPlan) :
    List PackageName → Option PackageName
  | [] => none
  | opt :: rest =>
    match plan.checkName opt with
    | some ver =>
      if versionMatches ver opt.Version then some opt
      else findConflictInGroup plan rest
    | none => findConflictInGroup plan rest

/-- The outer conflict loop of `addPackage` (db.go:1204). -/
def findConflict (plan : InstallationPlan) :
    List (List PackageName) → Option PackageName
  | [] => none
  | conflict :: rest =>
    match findConflictInGroup plan conflict with
    | some opt => some opt
    | none => findConflict plan rest

/-- The planner error kinds.  `notFound` is `ErrPackageNotFound`
(db.go:1126), which the group loop catches by a direct type assertion;
`failedToAdd` is the wrapping at db.go:1234, `unresolvedGroup` the error at
db.go:1242, `conflict` the error at db.go:1209.  `outOfFuel` is the
totalization artifact of the embedding, not a source error. -/
inductive PlanError where
  | notFound (q : PackageName)
  | conflict (q : PackageName) (opt : PackageName)
  | unresolvedGroup (group : List PackageName)
  | failedToAdd (pkg : Package) (inner : PlanError)
  | searchError (msg : String)
  | outOfFuel
  deriving DecidableEq, Repr

/-- The three mutually recursive control points of `addPackage`
(db.go:1167-1249): resolving one query, walking the dependency groups of a
chosen package, and walking the options of one group. -/
inductive PlanCall where
  | pkg (parent : Option Package) (query : PackageName)
  | groups (forPkg : Package) (added : List Package)
      (gs : List (List PackageName))
  | group (forPkg : Package) (added : List Package)
      (group0 : List PackageName) (options : List PackageName)
      (rest : List (List PackageName))
  deriving Repr

/-- `InstallationPlan.addPackage` (db.go:1167-1249), totalized by fuel
(every recursive call decrements it; the source recursion has no intrinsic
bound).  `ErrPackageNotFound` is raised before any state mutation
(db.go:1184-1186), so resuming the option walk with the pre-call plan is
faithful to the in-place mutation of the source.  The final
`plan.Packages = append(plan.Packages, pkg)` of db.go:1246 is the base case
of the `.groups` walk. -/
def planStep (db : PackageDatabase) :
    Nat → InstallationPlan → PlanCall →
      Except PlanError (List Package × InstallationPlan)
  | 0, _, _ => .error .outOfFuel
  | fuel + 1, plan, .pkg parent query =>
    match plan.getInstalled query with
    | some pkg =>
      .ok ([], { plan with dependencyGraph :=
        plan.dependencyGraph ++ [Edge.mk parent pkg true] })
    | none =>
      match db.Search query plan.queryOptions with
      | .error e => .error (.searchError e)
      | .ok results =>
        if results.length == 0 then .error (.notFound query)
        else
          let pkg := pickPackage plan.queryOptions query results
          let plan := { plan with dependencyGraph :=
            plan.dependencyGraph ++ [Edge.mk parent pkg false] }
          let plan := plan.addName pkg pkg.Name
          match findConflict plan pkg.Conflicts with
          | some opt => .error (.conflict query opt)
          | none =>
            let plan := pkg.Aliases.foldl (fun p a => p.addName pkg a) plan
            planStep db fuel plan (.groups pkg [pkg] pkg.Depends)
  | _ + 1, plan, .groups pkg added [] =>
    .ok (added, { plan with Packages := plan.Packages ++ [pkg] })
  | fuel + 1, plan, .groups pkg added (g :: rest) =>
    planStep db fuel plan (.group pkg added g g rest)
  | _ + 1, _, .group _ _ group0 [] _ =>
    .error (.unresolvedGroup group0)
  | fuel + 1, plan, .group pkg added group0 (opt :: opts) rest =>
    if opt.Recommended && plan.queryOptions.ExcludeRecommends then
      planStep db fuel plan (.group pkg added group0 opts rest)
    else
      match planStep db fuel plan (.pkg (some pkg) opt) with
      | .error (.notFound _) =>
        planStep db fuel plan (.group pkg added group0 opts rest)
      | .error e => .error (.failedToAdd pkg e)
      | .ok (newAdded, plan2) =>
        planStep db fuel plan2 (.groups pkg (added ++ newAdded) rest)

/-- `InstallationPlan.addPackage` entry point. -/
def InstallationPlan.addPackage (db : PackageDatabase) (fuel : Nat)
    (plan : InstallationPlan) (parent : Option Package)
    (query : PackageName) : Except PlanError (List Package × InstallationPlan) :=
  planStep db fuel plan (.pkg parent query)

/-- `PackageDatabase.MakeIncrementalPlanner` (db.go:1347). -/
def MakeIncrementalPlanner (opts : QueryOptions) : InstallationPlan :=
  { queryOptions := opts }

/-- The query loop of `PackageDatabase.MakeInstallationPlan`
(db.go:1338-1342). -/
def makeInstallationPlanGo (db : PackageDatabase) (fuel : Nat)
    (plan : InstallationPlan) :
    List PackageName → Except PlanError InstallationPlan
  | [] => .ok plan
  | q :: rest =>
    match plan.addPackage db fuel none q with
    | .error e => .error e
    | .ok (_, plan2) => makeInstallationPlanGo db fuel plan2 rest

/-- `PackageDatabase.MakeInstallationPlan` (db.go:1335-1345). -/
def PackageDatabase.MakeInstallationPlan (db : PackageDatabase) (fuel : Nat)
    (packages : List PackageName) (opts : QueryOptions) :
    Except PlanError InstallationPlan :=
  makeInstallationPlanGo db fuel (MakeIncrementalPlanner opts) packages

/-- The ordering property of one dependency edge relative to a package list:
a freshly installed child occurs at a position not preceded (inclusively) by
any occurrence of the dependent parent — i.e. the child appears before the
parent first does. -/
def EdgeOK (ps : List Package) (e : Edge) : Prop :=
  e.viaInstalled = false → ∀ p, e.parent = some p →
    ∃ i, ps.get? i = some e.child ∧ ∀ j ≤ i, ps.get? j ≠ some p

/-! ### Concrete repositories for the planner scenarios -/

/-- Scenario packages: `foo` at versions 1.0 and 2.0. -/
def foo10 : Package := { Name := { Name := "foo", Version := "1.0" } }

def foo20 : Package := { Name := { Name := "foo", Version := "2.0" } }

def dbFoo : PackageDatabase := { Fetchers := [⟨"d", [foo10, foo20]⟩] }

/-- A plan that already installed `foo` at version 1.0. -/
def planFoo : InstallationPlan :=
  { installed := [("foo", "1.0")], installedPackages := [("foo", foo10)] }

/-- The query `foo>=2.0`. -/
def qFooGe2 : PackageName := { Name := "foo", Version := ">=2.0" }

/-- S3 scenario: `a` depends on the group `[b?recommended, c]`. -/
def qa5 : PackageName := { Name := "a" }

def qbR5 : PackageName := { Name := "b", Recommended := true }

def qc5 : PackageName := { Name := "c" }

def pkgA5 : Package := { Name := qa5, Depends := [[qbR5, qc5]] }

def pkgB5 : Package := { Name := { Name := "b" } }

def pkgC5 : Package := { Name := qc5 }

def dbRec : PackageDatabase := { Fetchers := [⟨"d", [pkgA5, pkgB5, pkgC5]⟩] }

/-- Cyclic scenario: `a` and `b` depend on each other. -/
def qa2 : PackageName := { Name := "a" }

def qb2 : PackageName := { Name := "b" }

def pkgA2 : Package := { Name := qa2, Depends := [[qb2]] }

def pkgB2 : Package := { Name := qb2, Depends := [[qa2]] }

def dbCyc : PackageDatabase := { Fetchers := [⟨"d", [pkgA2, pkgB2]⟩] }

/-- Conflict scenario: `x` declares a conflict on short name `o` (any
version), and `o` is already installed. -/
def pkgO : Package := { Name := { Name := "o", Version := "1.1" } }

def pkgX : Package :=
  { Name := { Name := "x" }, Conflicts := [[{ Name := "o" }]] }

def dbConf : PackageDatabase := { Fetchers := [⟨"d", [pkgX]⟩] }

def planConf : InstallationPlan :=
  { installed := [("o", "1.1")], installedPackages := [("o", pkgO)] }

def qx : PackageName := { Name := "x" }

/-- Extract the plan of a successful planner run. -/
def getOk : Except PlanError InstallationPlan → InstallationPlan
  | .ok p => p
  | .error _ => {}

/-- The concrete plan produced for the recommends scenario without
`exclude_recommends`. -/
def planRecDef : InstallationPlan :=
  getOk (dbRec.MakeInstallationPlan 10 [qa5] {})

/-! ### The serial fetch loop (C9) -/

/-- One repository fetcher together with the outcome its `fetchWithKey`
call would produce (`fetchWithKey` loads and parses indices outside this
model). -/
structure FetcherSpec where
  Key : String
  result : Except String (List Package)

/-- The `NoParallel` loop of `PackageDatabase.FetchAll` (db.go:905-923):
fetchers run in declared order and the FIRST failure returns the wrapped
fetch error at once, leaving the remaining fetchers unfetched.  Returns the
loop outcome (an error or completion) plus the keys of the fetchers that
did load.  The post-loop wait and package-map rebuild (db.go:925-949)
belong to the concurrent machinery outside this model. -/
def fetchAllSerialLoop : List FetcherSpec → List String → Option String × List String
  | [], acc => (none, acc)
  | f :: rest, acc =>
    match f.result with
    | .error e => (some ("failed to load " ++ f.Key ++ ": " ++ e), acc)
    | .ok _ => fetchAllSerialLoop rest (acc ++ [f.Key])

/-- A fetcher whose load fails. -/
def badFetcher : FetcherSpec := { Key := "bad", result := .error "boom" }

/-- A fetcher whose load succeeds. -/
def goodFetcher : FetcherSpec := { Key := "good", result := .ok [] }

end TinyRange.Db

namespace TinyRange.Filesystem

/-! ## The filesystem assembler tree, from src/pkg/filesystem/directory.go

The virtual tree is the in-memory `memoryDirectory` (a `names` list for
deterministic iteration plus an `entries` map).  Walking follows the
source; Go `path.Clean` and `path.Join` (standard library, not repository
code) are modelled for already-clean relative paths, which every call in
the theorems below uses. -/

structure FileMeta where
  mode : Nat := 0
  uid : Nat := 0
  gid : Nat := 0
  mtime : Int := 0
  deriving DecidableEq, Repr

inductive FsError where
  | notExist
  | invalidName (name : String)
  | pathName (name : String)
  | notDirectory
  | loop
  | unknownEntryType
  deriving DecidableEq, Repr

/-- A file node: `memoryFile` contents for regular files, symlink and
hardlink targets, or a `memoryDirectory`. -/
inductive MemFile where
  | regular (content : String) (meta : FileMeta)
  | symlink (target : String) (meta : FileMeta)
  | hardlink (target : String) (meta : FileMeta)
  | dir (names : List String) (entries : List (String × MemFile)) (meta : FileMeta)

/-- `NewMemoryDirectory` (directory.go:365): mode `fs.ModeDir | 0755`. -/
def NewMemoryDirectory : MemFile := .dir [] [] { mode := 493 }

/-- The `path.Base(name) != name` guard of the directory methods: for the
nonempty slash-free names the methods accept, `path.Base` is the identity,
so the guard detects a path separator. -/
def hasSlash (name : String) : Bool := name.data.contains '/'

/-- `memoryDirectory.Create` (directory.go:265-282).  When the name is
already present the method returns success WITHOUT replacing the entry
(lines 274-276). -/
def memCreate : MemFile → String → MemFile → Except FsError MemFile
  | .dir names entries meta, name, f =>
    if name = "" ∨ name = "." then .error (.invalidName name)
    else if hasSlash name then .error (.pathName name)
    else if (assocGet entries name).isSome then .ok (.dir names entries meta)
    else .ok (.dir (names ++ [name]) (entries ++ [(name, f)]) meta)
  | _, _, _ => .error .notDirectory

/-- `memoryDirectory.GetChild` (directory.go:285-300). -/
def memGetChild : MemFile → String → Except FsError MemFile
  | .dir names entries meta, name =>
    if name = "" ∨ name = "." then .ok (.dir names entries meta)
    else if hasSlash name then .error (.pathName name)
    else
      match assocGet entries name with
      | some f => .ok f
      | none => .error .notExist
  | _, _ => .error .notDirectory

/-- `memoryDirectory.Mkdir` (directory.go:303-332): an existing directory
entry is returned as is, an existing non-directory is an error, a missing
entry is freshly created. -/
def memMkdir : MemFile → String → Except FsError MemFile
  | .dir names entries meta, name =>
    if name = "" ∨ name = "." then .error (.invalidName name)
    else if hasSlash name then .error (.pathName name)
    else
      match assocGet entries name with
      | some (.dir _ _ _) => .ok (.dir names entries meta)
      | some _ => .error .notDirectory
      | none => memCreate (.dir names entries meta) name NewMemoryDirectory
  | _, _ => .error .notDirectory

/-- `memoryDirectory.Unlink` (directory.go:254-262): deletes from the entry
map (the `names` list is left as is, as in the source). -/
def memUnlink : MemFile → String → Except FsError MemFile
  | .dir names entries meta, name =>
    if hasSlash name then .error (.pathName name)
    else .ok (.dir names (entries.filter fun kv => !(kv.1 == name)) meta)
  | _, _ => .error .notDirectory

/-- Node lookup along a real path of entry names. -/
def getAt : MemFile → List String → Option MemFile
  | f, [] => some f
  | .dir _ entries _, t :: rest =>
    match assocGet entries t with
    | some c => getAt c rest
    | none => none
  | _, _ :: _ => none

/-- Modify the node at a real path: the functional rendering of the
mutation the source performs through directory references. -/
def modifyAt : MemFile → List String → (MemFile → Except FsError MemFile) →
    Except FsError MemFile
  | f, [], g => g f
  | .dir names entries meta, t :: rest, g =>
    match assocGet entries t with
    | some c =>
      match modifyAt c rest g with
      | .ok c2 => .ok (.dir names (assocPut entries t c2) meta)
      | .error e => .error e
    | none => .error .notExist
  | _, _ :: _, _ => .error .notDirectory

/-- `strings.TrimPrefix(p, "/")` followed by
`strings.Split(path.Clean(p), "/")` (directory.go:72-74), for clean
paths. -/
def pathTokens (p : String) : List String :=
  let cs := match p.data with
    | '/' :: rest => rest
    | cs => cs
  (splitOnChar '/' cs).map fun t => String.mk t

def joinTokens : List String → String
  | [] => ""
  | [t] => t
  | t :: rest => t ++ "/" ++ joinTokens rest

/-- The walking core shared by `OpenPath` (directory.go:71-102) and
`resolveDirectory` (directory.go:39-69), totalized by fuel against symlink
cycles.  Calls return the REAL entry path from the root; the source
returns the node itself, recovered here by `getAt`.  `resolve` follows a
symlink by joining its target onto the parent of the LOGICAL name walked so
far, exactly as `path.Join(path.Dir(name), target)` does for clean
paths. -/
inductive WalkCall where
  | openT (tokens : List String)
  | walk (cur : List String) (done : List String) (ts : List String)
  | resolve (childReal : List String) (logicalName : List String)

def fsStep (root : MemFile) : Nat → WalkCall → Except FsError (List String)
  | 0, _ => .error .loop
  | fuel + 1, .openT tokens => fsStep root fuel (.walk [] [] tokens)
  | _ + 1, .walk cur _ [] => .ok cur
  | _ + 1, .walk cur _ [last] =>
    if last = "." then .ok cur
    else
      match getAt root cur with
      | some node =>
        match memGetChild node last with
        | .ok _ => .ok (cur ++ [last])
        | .error e => .error e
      | none => .error .notExist
  | fuel + 1, .walk cur done (t :: rest) =>
    match getAt root cur with
    | some node =>
      match memGetChild node t with
      | .ok _ =>
        match fsStep root fuel (.resolve (cur ++ [t]) (done ++ [t])) with
        | .ok cur2 => fsStep root fuel (.walk cur2 (done ++ [t]) rest)
        | .error e => .error e
      | .error e => .error e
    | none => .error .notExist
  | fuel + 1, .resolve childReal logicalName =>
    match getAt root childReal with
    | none => .error .notExist
    | some (.dir _ _ _) => .ok childReal
    | some (.symlink target _) =>
      let newTokens := logicalName.dropLast ++ pathTokens target
      match fsStep root fuel (.openT newTokens) with
      | .ok entReal => fsStep root fuel (.resolve entReal newTokens)
      | .error e => .error e
    | some _ => .error .notDirectory

/-- `OpenPath` (directory.go:71-102). -/
def OpenPath (fuel : Nat) (root : MemFile) (p : String) : Except FsError MemFile :=
  match fsStep root fuel (.openT (pathTokens p)) with
  | .ok real =>
    match getAt root real with
    | some f => .ok f
    | none => .error .notExist
  | .error e => .error e

/-- The walk of `CreateChild` (directory.go:150-188) including the
make-missing-intermediate-directory branch (a freshly made directory needs
no symlink resolution), returning the updated root. -/
def createChildWalk (f : MemFile) :
    Nat → MemFile → List String → List String → List String →
    Except FsError MemFile
  | 0, _, _, _, _ => .error .loop
  | _ + 1, _, _, _, [] => .error .notExist
  | _ + 1, root, cur, _, [last] =>
    modifyAt root cur fun node => memCreate node last f
  | fuel + 1, root, cur, done, t :: rest =>
    match getAt root cur with
    | some node =>
      match memGetChild node t with
      | .error .notExist =>
        match modifyAt root cur (fun nd => memMkdir nd t) with
        | .ok root2 => createChildWalk f fuel root2 (cur ++ [t]) (done ++ [t]) rest
        | .error e => .error e
      | .error e => .error e
      | .ok _ =>
        match fsStep root fuel (.resolve (cur ++ [t]) (done ++ [t])) with
        | .ok cur2 => createChildWalk f fuel root cur2 (done ++ [t]) rest
        | .error e => .error e
    | none => .error .notExist

/-- `CreateChild` (directory.go:150-188). -/
def CreateChild (fuel : Nat) (root : MemFile) (p : String) (f : MemFile) :
    Except FsError MemFile :=
  createChildWalk f fuel root [] [] (pathTokens p)

/-- The walk of `Mkdir` (directory.go:104-148), returning the updated root
and the real path of the target directory. -/
def mkdirWalk :
    Nat → MemFile → List String → List String → List String →
    Except FsError (MemFile × List String)
  | 0, _, _, _, _ => .error .loop
  | _ + 1, _, _, _, [] => .error .notExist
  | _ + 1, root, cur, _, [last] =>
    if last = "." then .ok (root, cur)
    else
      match modifyAt root cur (fun nd => memMkdir nd last) with
      | .ok root2 => .ok (root2, cur ++ [last])
      | .error e => .error e
  | fuel + 1, root, cur, done, t :: rest =>
    match getAt root cur with
    | some node =>
      match memGetChild node t with
      | .error .notExist =>
        match modifyAt root cur (fun nd => memMkdir nd t) with
        | .ok root2 => mkdirWalk fuel root2 (cur ++ [t]) (done ++ [t]) rest
        | .error e => .error e
      | .error e => .error e
      | .ok _ =>
        match fsStep root fuel (.resolve (cur ++ [t]) (done ++ [t])) with
        | .ok cur2 => mkdirWalk fuel root cur2 (done ++ [t]) rest
        | .error e => .error e
    | none => .error .notExist

/-- `Mkdir` (directory.go:104-148). -/
def Mkdir (fuel : Nat) (root : MemFile) (p : String) :
    Except FsError (MemFile × List String) :=
  mkdirWalk fuel root [] [] (pathTokens p)

inductive EntryType where
  | directory
  | regular
  | symlink
  | link
  | other
  deriving DecidableEq, Repr

/-- The slice of the archive `Entry` interface `ExtractEntry` consumes. -/
structure ArchiveEntry where
  Typeflag : EntryType
  Name : String
  content : String := ""
  linkTarget : String := ""
  Mode : Nat := 0
  Uid : Nat := 0
  Gid : Nat := 0
  ModTime : Int := 0
  deriving DecidableEq, Repr

def entryMeta (ent : ArchiveEntry) : FileMeta :=
  { mode := ent.Mode, uid := ent.Uid, gid := ent.Gid, mtime := ent.ModTime }

/-- `strings.TrimSuffix(ent.Name(), "/")` then `strings.TrimPrefix(_, "./")`
(directory.go:377-378). -/
def trimDirName (n : String) : String :=
  let cs := n.data
  let cs := if cs.getLast? = some '/' then cs.dropLast else cs
  let cs := match cs with
    | '.' :: '/' :: rest => rest
    | cs2 => cs2
  String.mk cs

/-- `ExtractEntry` (directory.go:374-409).  A directory entry is made (the
`ErrExist` early return of the source cannot fire for memory directories,
whose `Mkdir` hands back an existing directory) and its mode, owner and
mtime set; regular files, symlinks and hardlinks are created through
`CreateChild`. -/
def ExtractEntry (fuel : Nat) (ent : ArchiveEntry) (root : MemFile) :
    Except FsError MemFile :=
  match ent.Typeflag with
  | .directory =>
    let name := trimDirName ent.Name
    match Mkdir fuel root name with
    | .error e => .error e
    | .ok (root2, real) =>
      modifyAt root2 real fun nd =>
        match nd with
        | .dir ns es _ => .ok (.dir ns es (entryMeta ent))
        | _ => .error .notDirectory
  | .regular => CreateChild fuel root ent.Name (.regular ent.content (entryMeta ent))
  | .symlink => CreateChild fuel root ent.Name (.symlink ent.linkTarget (entryMeta ent))
  | .link => CreateChild fuel root ent.Name (.hardlink ent.linkTarget (entryMeta ent))
  | .other => .error .unknownEntryType

end TinyRange.Filesystem

namespace TinyRange

/-! ## Supporting lemmas -/

theorem Fs.lookup_write (fs : Fs) (p c q) :
    (fs.write p c).lookup q = if q = p then some c else fs.lookup q := by
  induction fs with
  | nil =>
    simp only [Fs.write, Fs.lookup]
    split <;> simp_all [eq_comm]
  | cons kv rest ih =>
    obtain ⟨k, v⟩ := kv
    by_cases hk : k = p <;> by_cases hq : q = p <;>
      simp_all [Fs.write, Fs.lookup] <;> simp_all [eq_comm]

theorem Fs.lookup_remove (fs : Fs) (p q) :
    (fs.remove p).lookup q = if q = p then none else fs.lookup q := by
  induction fs with
  | nil => simp [Fs.remove, Fs.lookup]
  | cons kv rest ih =>
    obtain ⟨k, v⟩ := kv
    by_cases hk : k = p <;> by_cases hq : q = k <;>
      simp_all [Fs.remove, Fs.lookup] <;> simp_all [eq_comm]

theorem Fs.lookup_rename_of_ne (fs : Fs) (src dst q) (h1 : q ≠ src) (h2 : q ≠ dst) :
    (fs.rename src dst).lookup q = fs.lookup q := by
  unfold Fs.rename
  cases fs.lookup src with
  | none => rfl
  | some c => simp [Fs.lookup_write, Fs.lookup_remove, h1, h2]

theorem Fs.lookup_rename_src (fs : Fs) (src dst) (h : src ≠ dst) :
    (fs.rename src dst).lookup src = none := by
  unfold Fs.rename
  cases hs : fs.lookup src with
  | none => simpa using hs
  | some c => simp [Fs.lookup_write, Fs.lookup_remove, h]

theorem assocGet_put (l : List (String × α)) (k : String) (v : α) :
    assocGet (assocPut l k v) k = some v := by
  induction l with
  | nil => simp [assocPut, assocGet]
  | cons kv rest ih =>
    obtain ⟨k0, v0⟩ := kv
    by_cases hk : k0 = k <;> simp_all [assocPut, assocGet]

theorem string_append_ne_of_ne (x : String) {s t : String} (h : s ≠ t) :
    x ++ s ≠ x ++ t := by
  intro he
  apply h
  apply String.ext
  have hd := congrArg String.data he
  simp only [String.data_append] at hd
  exact List.append_cancel_left hd

theorem string_self_ne_append {x t : String} (h : t ≠ "") : x ≠ x ++ t := by
  intro he
  apply h
  apply String.ext
  have hd := congrArg String.data he
  simp only [String.data_append] at hd
  have : x.data ++ t.data = x.data ++ [] := by simpa using hd.symm
  simpa using (List.append_cancel_left this)

namespace Database

theorem FilenameFromHash_ne (cfg : BuildConfig) (hash : String) {s t : String}
    (h : s ≠ t) : FilenameFromHash cfg hash s ≠ FilenameFromHash cfg hash t := by
  unfold FilenameFromHash
  simpa [String.append_assoc] using
    string_append_ne_of_ne (cfg.buildDir ++ "/" ++ hash) h

theorem tmpFilename_eq (cfg : BuildConfig) (hash : String) :
    FilenameFromHash cfg hash ".bin" ++ ".tmp" = FilenameFromHash cfg hash ".bin.tmp" := by
  unfold FilenameFromHash
  rw [String.append_assoc]
  congr 1

theorem tmp_ne_bin (cfg : BuildConfig) (hash : String) :
    FilenameFromHash cfg hash ".bin" ++ ".tmp" ≠ FilenameFromHash cfg hash ".bin" :=
  fun he => string_self_ne_append (x := FilenameFromHash cfg hash ".bin")
    (t := ".tmp") (by decide) he.symm

theorem tmp_ne_dlTag (cfg : BuildConfig) (hash : String) :
    FilenameFromHash cfg hash ".bin" ++ ".tmp" ≠ FilenameFromHash cfg hash ".downloaded" := by
  rw [tmpFilename_eq]
  exact FilenameFromHash_ne cfg hash (by decide)

theorem tmp_ne_def (cfg : BuildConfig) (hash : String) :
    FilenameFromHash cfg hash ".bin" ++ ".tmp" ≠ FilenameFromHash cfg hash ".def" := by
  rw [tmpFilename_eq]
  exact FilenameFromHash_ne cfg hash (by decide)

theorem tmp_ne_redist (cfg : BuildConfig) (hash : String) :
    FilenameFromHash cfg hash ".bin" ++ ".tmp" ≠
      FilenameFromHash cfg hash ".redistributable" := by
  rw [tmpFilename_eq]
  exact FilenameFromHash_ne cfg hash (by decide)

/-- In `downloadFromDistributionServer`, when neither the close failure nor
the rename failure is injected, no execution path leaves the tmp file
behind. -/
theorem download_tmp_absent (env : BuildEnv) (cfg : BuildConfig) (hash : String)
    (fs : Fs) (h1 : env.dlCloseFails = false) (h2 : env.dlRenameFails = false)
    (h0 : fs.lookup (FilenameFromHash cfg hash ".bin" ++ ".tmp") = none) :
    ((downloadFromDistributionServer env cfg hash fs).2.lookup
      (FilenameFromHash cfg hash ".bin" ++ ".tmp")) = none := by
  unfold downloadFromDistributionServer
  split
  · simpa using h0
  · split
    · simpa using h0
    · split
      · simpa using h0
      · split
        · simpa using h0
        · split
          · simpa using h0
          · split
            · simp [Fs.lookup_remove]
            · simp only [h1, h2, Bool.false_eq_true, if_false]
              split
              · simp [Fs.lookup_rename_src _ _ _ (tmp_ne_bin cfg hash)]
              · simp [Fs.lookup_write, Fs.lookup_rename_src _ _ _ (tmp_ne_bin cfg hash),
                  tmp_ne_dlTag cfg hash]

/-- In the engine-driven rename step no path leaves the tmp file behind:
a failed rename removes it (lines 720-722) and a successful rename moves it
away. -/
theorem buildRename_tmp_absent (env : BuildEnv) (cfg : BuildConfig)
    (hash : String) (status : BuildStatus) (st : DbState) :
    ((buildRename env cfg hash (FilenameFromHash cfg hash ".bin")
      (FilenameFromHash cfg hash ".bin" ++ ".tmp") status st).2.fs.lookup
      (FilenameFromHash cfg hash ".bin" ++ ".tmp")) = none := by
  unfold buildRename
  split
  · simp [Fs.lookup_remove]
  · split
    · split
      · simp [updateBuildStatus, Fs.lookup_rename_src _ _ _ (tmp_ne_bin cfg hash)]
      · simp [updateBuildStatus, Fs.lookup_write,
          Fs.lookup_rename_src _ _ _ (tmp_ne_bin cfg hash), tmp_ne_redist cfg hash]
    · simp [updateBuildStatus, Fs.lookup_rename_src _ _ _ (tmp_ne_bin cfg hash)]

/-- In the local build step the tmp file is absent afterwards, provided the
builder does not itself error after writing the tmp path and does not write
the tmp path unflagged while the engine create fails. -/
theorem buildLocal_tmp_absent (env : BuildEnv) (cfg : BuildConfig)
    (hash : String) (status : BuildStatus) (st : DbState)
    (hb1 : ∀ m c, env.builder ≠ .fails m (some c))
    (hb2 : ∀ c w o, env.builder = .writer false (some c) w o →
      env.createTmpFails = false)
    (h0 : st.fs.lookup (FilenameFromHash cfg hash ".bin" ++ ".tmp") = none) :
    ((buildLocal env cfg hash (FilenameFromHash cfg hash ".bin")
      (FilenameFromHash cfg hash ".bin" ++ ".tmp") status st).2.fs.lookup
      (FilenameFromHash cfg hash ".bin" ++ ".tmp")) = none := by
  unfold buildLocal
  cases hb : env.builder with
  | fails m t =>
    cases t with
    | none => simpa [applyTmpWrite] using h0
    | some c => exact absurd hb (hb1 m c)
  | cachedNil => simpa [updateBuildStatus] using h0
  | writer hco tw wf out =>
    cases hco with
    | true =>
      simp only [Bool.not_true, Bool.false_eq_true, if_false]
      split
      · simp [Fs.lookup_remove]
      · exact buildRename_tmp_absent env cfg hash status _
    | false =>
      simp only [Bool.not_false, if_true]
      split
      · cases tw with
        | none => simpa [applyTmpWrite] using h0
        | some c =>
          have := hb2 c wf out hb
          simp_all
      · split
        · simp [Fs.lookup_remove]
        · split
          · simp [Fs.lookup_remove]
          · exact buildRename_tmp_absent env cfg hash status _

/-- In `buildTail` (persist the definition, try the mirror, local build) the
tmp file is absent afterwards when the leak conditions are excluded. -/
theorem buildTail_tmp_absent (env : BuildEnv) (cfg : BuildConfig)
    (hash : String) (status : BuildStatus) (st : DbState)
    (hd1 : env.dlCloseFails = false) (hd2 : env.dlRenameFails = false)
    (hb1 : ∀ m c, env.builder ≠ .fails m (some c))
    (hb2 : ∀ c w o, env.builder = .writer false (some c) w o →
      env.createTmpFails = false)
    (h0 : st.fs.lookup (FilenameFromHash cfg hash ".bin" ++ ".tmp") = none) :
    ((buildTail env cfg hash (FilenameFromHash cfg hash ".bin")
      (FilenameFromHash cfg hash ".bin" ++ ".tmp") status st).2.fs.lookup
      (FilenameFromHash cfg hash ".bin" ++ ".tmp")) = none := by
  unfold buildTail
  cases hm : env.marshal with
  | error e => simpa using h0
  | ok defValue =>
    cases hw : env.writeDefFails with
    | true => simpa using h0
    | false =>
      simp only [Bool.false_eq_true, if_false]
      have h1 : (st.fs.write (FilenameFromHash cfg hash ".def")
          defValue).lookup (FilenameFromHash cfg hash ".bin" ++ ".tmp") = none := by
        simp [Fs.lookup_write, tmp_ne_def cfg hash, h0]
      split
      · split
        · next heq =>
          have hdl := download_tmp_absent env cfg hash _ hd1 hd2 h1
          rw [heq] at hdl
          simpa using hdl
        · next heq =>
          have hdl := download_tmp_absent env cfg hash _ hd1 hd2 h1
          rw [heq] at hdl
          split
          · simpa [updateBuildStatus] using hdl
          · simpa [updateBuildStatus, Fs.lookup_write, tmp_ne_redist cfg hash] using hdl
        · next heq =>
          have hdl := download_tmp_absent env cfg hash _ hd1 hd2 h1
          rw [heq] at hdl
          exact buildLocal_tmp_absent env cfg hash status _ hb1 hb2 (by simpa using hdl)
      · exact buildLocal_tmp_absent env cfg hash status _ hb1 hb2 h1

/-! ## C1: removal of the tmp file -/

/-- C1 (counterexample): the claim "after build returns, the tmp file does
not exist, for every failure point including the download-path close error"
is false.  With a mirror configured, a redistributable definition, a 200
response and a failing close of the tmp file, `Build` returns the close
error while `<hash>.bin.tmp` still holds the downloaded bytes. -/
theorem c1_counterexample :
    (Build { envOK with dlCloseFails := true } cfgMirror ⟨false⟩ stEmpty).1 =
      .error "close" ∧
    (Build { envOK with dlCloseFails := true } cfgMirror ⟨false⟩
      stEmpty).2.fs.lookup "b/h1.bin.tmp" = some "BODY" := by
  constructor <;> rfl

/-- C1 (amended): after `Build` returns — success or failure — the tmp file
`<hash>.bin.tmp` is absent, provided none of the three leaking executions
occurs (`tmpLeak`): the download-path close failure, the download-path
rename failure, and a builder that errors after itself writing the tmp path
(or writes it unflagged while the engine create of the tmp file fails).
All the remaining failure points — `WriteResult`, the local close, both
renames, the copy — do remove the tmp file as the spec states. -/
theorem c1_tmp_removed (env : BuildEnv) (cfg : BuildConfig)
    (opts : BuildOptions) (st : DbState) (h : String)
    (hh : env.hashDef = .ok h) (hleak : tmpLeak env = false)
    (h0 : st.fs.lookup (FilenameFromHash cfg h ".bin" ++ ".tmp") = none) :
    ((Build env cfg opts st).2.fs.lookup
      (FilenameFromHash cfg h ".bin" ++ ".tmp")) = none := by
  have hd1 : env.dlCloseFails = false := by
    revert hleak
    unfold tmpLeak
    cases env.dlCloseFails <;> simp
  have hd2 : env.dlRenameFails = false := by
    revert hleak
    unfold tmpLeak
    cases env.dlRenameFails <;> simp
  have hb1 : ∀ m c, env.builder ≠ .fails m (some c) := by
    intro m c hbe
    unfold tmpLeak at hleak
    rw [hbe] at hleak
    simp at hleak
  have hb2 : ∀ c w o, env.builder = .writer false (some c) w o →
      env.createTmpFails = false := by
    intro c w o hbe
    unfold tmpLeak at hleak
    rw [hbe] at hleak
    simp at hleak
    exact hleak.2
  unfold Build
  rw [hh]
  cases hc : assocGet st.buildCache h with
  | some f =>
    simp only [hc]
    simpa using h0
  | none =>
    simp only [hc]
    split
    · split
      · simpa using h0
      · split
        · simpa using h0
        · exact buildTail_tmp_absent env cfg h _ st hd1 hd2 hb1 hb2 h0
    · exact buildTail_tmp_absent env cfg h _ st hd1 hd2 hb1 hb2 h0

/-- Witness for C1 (amended) on a fully succeeding concrete run. -/
theorem c1_tmp_removed_witness :
    ((Build envOK cfgMirror ⟨false⟩ stEmpty).2.fs.lookup
      (FilenameFromHash cfgMirror "h1" ".bin" ++ ".tmp")) = none :=
  c1_tmp_removed envOK cfgMirror ⟨false⟩ stEmpty "h1" rfl (by decide) rfl

/-! ## C3: the distribution-mirror hit -/

/-- C3 (counterexample): on a mirror hit the engine records the Built
status (database.go:651), not a distinct Downloaded status, so the claim
"returns with status Downloaded rather than Built or Cached" is false on a
concrete mirror-hit run. -/
theorem c3_counterexample :
    (Build envOK cfgMirror ⟨false⟩ stEmpty).1 = .ok "b/h1.bin" ∧
    (Build envOK cfgMirror ⟨false⟩ stEmpty).2.fs.lookup "b/h1.downloaded" =
      some "" ∧
    assocGet (Build envOK cfgMirror ⟨false⟩ stEmpty).2.buildStatuses "defkey" =
      some { Tag := "tag", Status := .built } ∧
    assocGet (Build envOK cfgMirror ⟨false⟩ stEmpty).2.buildStatuses "defkey" ≠
      some { Tag := "tag", Status := .downloaded } := by
  refine ⟨rfl, rfl, rfl, ?_⟩
  decide

/-- C3 (amended): for a redistributable definition with a mirror configured
and a 200 response, `Build` streams the body into the tmp file, renames it
to `<h>.bin`, writes the `.downloaded` and `.redistributable` tags, has
already written `<h>.def`, and records the status Built (not a distinct
Downloaded status; only the `.downloaded` tag marks the mirror origin). -/
theorem c3_mirror_download (env : BuildEnv) (cfg : BuildConfig)
    (opts : BuildOptions) (st : DbState) (h defBytes body : String)
    (hh : env.hashDef = .ok h)
    (hc : assocGet st.buildCache h = none)
    (hbin : st.fs.lookup (FilenameFromHash cfg h ".bin") = none)
    (hm : env.marshal = .ok defBytes)
    (hwd : env.writeDefFails = false)
    (hms : cfg.distributionServer ≠ "")
    (hr : env.redistributable = true)
    (hg : env.httpGet = .ok (200, body))
    (f1 : env.dlCreateTmpFails = false) (f2 : env.dlCopyFails = false)
    (f3 : env.dlCloseFails = false) (f4 : env.dlRenameFails = false)
    (f5 : env.writeDlTagFails = false) (f6 : env.writeRedistTagFails = false) :
    (Build env cfg opts st).1 = .ok (FilenameFromHash cfg h ".bin") ∧
    (Build env cfg opts st).2.fs.lookup (FilenameFromHash cfg h ".bin") =
      some body ∧
    (Build env cfg opts st).2.fs.lookup (FilenameFromHash cfg h ".downloaded") =
      some "" ∧
    (Build env cfg opts st).2.fs.lookup
      (FilenameFromHash cfg h ".redistributable") = some "" ∧
    (Build env cfg opts st).2.fs.lookup (FilenameFromHash cfg h ".def") =
      some defBytes ∧
    assocGet (Build env cfg opts st).2.buildStatuses env.defKey =
      some { Tag := env.tag, Status := .built } := by
  have n1 : FilenameFromHash cfg h ".bin" ≠ FilenameFromHash cfg h ".redistributable" :=
    FilenameFromHash_ne cfg h (by decide)
  have n2 : FilenameFromHash cfg h ".bin" ≠ FilenameFromHash cfg h ".downloaded" :=
    FilenameFromHash_ne cfg h (by decide)
  have n3 : FilenameFromHash cfg h ".downloaded" ≠
      FilenameFromHash cfg h ".redistributable" :=
    FilenameFromHash_ne cfg h (by decide)
  have n4 : FilenameFromHash cfg h ".def" ≠ FilenameFromHash cfg h ".redistributable" :=
    FilenameFromHash_ne cfg h (by decide)
  have n5 : FilenameFromHash cfg h ".def" ≠ FilenameFromHash cfg h ".downloaded" :=
    FilenameFromHash_ne cfg h (by decide)
  have n6 : FilenameFromHash cfg h ".def" ≠ FilenameFromHash cfg h ".bin" :=
    FilenameFromHash_ne cfg h (by decide)
  have n7 : FilenameFromHash cfg h ".def" ≠ FilenameFromHash cfg h ".bin" ++ ".tmp" :=
    (tmp_ne_def cfg h).symm
  have hmirror : (cfg.distributionServer != "") = true := by
    simpa using hms
  refine ⟨?_, ?_, ?_, ?_, ?_, ?_⟩ <;>
    simp [Build, buildTail, downloadFromDistributionServer, commonExists,
      updateBuildStatus, Fs.rename, Fs.lookup_write, Fs.lookup_remove,
      assocGet_put, hh, hc, hbin, hm, hwd, hmirror, hr, hg, f1, f2, f3, f4,
      f5, f6, n1, n2, n3, n4, n5, n6, n7]

/-- Witness for C3 (amended) on the concrete mirror-hit run. -/
theorem c3_mirror_download_witness :
    (Build envOK cfgMirror ⟨false⟩ stEmpty).1 =
      .ok (FilenameFromHash cfgMirror "h1" ".bin") ∧
    (Build envOK cfgMirror ⟨false⟩ stEmpty).2.fs.lookup
      (FilenameFromHash cfgMirror "h1" ".bin") = some "BODY" ∧
    (Build envOK cfgMirror ⟨false⟩ stEmpty).2.fs.lookup
      (FilenameFromHash cfgMirror "h1" ".downloaded") = some "" ∧
    (Build envOK cfgMirror ⟨false⟩ stEmpty).2.fs.lookup
      (FilenameFromHash cfgMirror "h1" ".redistributable") = some "" ∧
    (Build envOK cfgMirror ⟨false⟩ stEmpty).2.fs.lookup
      (FilenameFromHash cfgMirror "h1" ".def") = some "DEF" ∧
    assocGet (Build envOK cfgMirror ⟨false⟩ stEmpty).2.buildStatuses
      envOK.defKey = some { Tag := envOK.tag, Status := .built } :=
  c3_mirror_download envOK cfgMirror ⟨false⟩ stEmpty "h1" "DEF" "BODY"
    rfl rfl rfl rfl rfl (by decide) rfl rfl rfl rfl rfl rfl rfl rfl

/-! ## C10: the in-memory build cache short-circuits everything -/

/-- C10: if the definition hashes to an entry of the in-memory build cache,
`Build` returns the cached file handle at once — the state (and hence the
store) is untouched and the result does not depend on
`opts.AlwaysRebuild`, so `AlwaysRebuild = true` still returns the
previously built artifact. -/
theorem c10_build_cache_hit (env : BuildEnv) (cfg : BuildConfig)
    (opts : BuildOptions) (st : DbState) (h f : String)
    (hh : env.hashDef = .ok h) (hc : assocGet st.buildCache h = some f) :
    Build env cfg opts st = (.ok f, st) := by
  simp [Build, hh, hc]

/-- Witness for C10 at a concrete cached state (with `AlwaysRebuild = true`). -/
theorem c10_build_cache_hit_witness :
    Build envOK cfgMirror ⟨true⟩
      { stEmpty with buildCache := [("h1", "b/h1.bin")] } =
      (.ok "b/h1.bin", { stEmpty with buildCache := [("h1", "b/h1.bin")] }) :=
  c10_build_cache_hit envOK cfgMirror ⟨true⟩
    { stEmpty with buildCache := [("h1", "b/h1.bin")] } "h1" "b/h1.bin" rfl rfl

end Database

namespace Db

/-! ## C4: the already-installed short-circuit -/

/-- C4 (counterexample): the short-circuit does not check that the installed
package satisfies the query.  With `foo` 1.0 installed and the query
`foo>=2.0` — which the repository package `foo` 2.0 satisfies while the
installed 1.0 does not — `addPackage` records an edge to the installed 1.0
package and returns success without installing anything. -/
theorem c4_counterexample :
    planFoo.addPackage dbFoo 10 none qFooGe2 =
      .ok ([], { planFoo with dependencyGraph := [Edge.mk none foo10 true] }) ∧
    foo10.Matches qFooGe2 = false ∧
    foo20.Matches qFooGe2 = true :=
  ⟨rfl, rfl, rfl⟩

/-- C4 (amended): whenever the installed map holds an entry under the query
short name, `addPackage` records a dependency edge to that installed package
and returns immediately — for every repository database (no search happens:
the result does not depend on `db`) and regardless of whether the installed
package satisfies the query. -/
theorem c4_short_circuit (db : PackageDatabase) (fuel : Nat)
    (plan : InstallationPlan) (parent : Option Package)
    (query : PackageName) (pkg : Package)
    (h : plan.getInstalled query = some pkg) :
    plan.addPackage db (fuel + 1) parent query =
      .ok ([], { plan with dependencyGraph :=
        plan.dependencyGraph ++ [Edge.mk parent pkg true] }) := by
  simp [InstallationPlan.addPackage, planStep, h]

/-- Witness for C4 (amended) at the concrete `foo` plan. -/
theorem c4_short_circuit_witness :
    planFoo.addPackage dbFoo 10 none qFooGe2 =
      .ok ([], { planFoo with dependencyGraph :=
        planFoo.dependencyGraph ++ [Edge.mk none foo10 true] }) :=
  c4_short_circuit dbFoo 9 planFoo none qFooGe2 foo10 rfl

/-! ## C5: option-group resolution -/

/-- C5: the group walk of `addPackage`.  In declared order: an option marked
recommended is skipped when `exclude_recommends` is set; an option whose
short name is already installed succeeds immediately, recording only the
dependency edge; a `NotFound` moves to the next option; any other error
aborts with the wrapping error; an exhausted group fails as unresolved; and
on the scenario `a` with group `[b?recommended, c]`, planning `a` selects
`c` when `exclude_recommends` is set and `b` otherwise. -/
theorem c5_group_semantics (db : PackageDatabase) :
    (∀ fuel plan pkg added g0 opt opts rest, opt.Recommended = true →
      plan.queryOptions.ExcludeRecommends = true →
      planStep db (fuel + 1) plan (.group pkg added g0 (opt :: opts) rest) =
        planStep db fuel plan (.group pkg added g0 opts rest)) ∧
    (∀ fuel plan pkg added g0 opt opts rest p,
      (opt.Recommended && plan.queryOptions.ExcludeRecommends) = false →
      plan.getInstalled opt = some p →
      planStep db (fuel + 1 + 1) plan (.group pkg added g0 (opt :: opts) rest) =
        planStep db (fuel + 1)
          { plan with dependencyGraph :=
            plan.dependencyGraph ++ [Edge.mk (some pkg) p true] }
          (.groups pkg added rest)) ∧
    (∀ fuel plan pkg added g0 opt opts rest q,
      (opt.Recommended && plan.queryOptions.ExcludeRecommends) = false →
      planStep db fuel plan (.pkg (some pkg) opt) = .error (.notFound q) →
      planStep db (fuel + 1) plan (.group pkg added g0 (opt :: opts) rest) =
        planStep db fuel plan (.group pkg added g0 opts rest)) ∧
    (∀ fuel plan pkg added g0 opt opts rest e,
      (opt.Recommended && plan.queryOptions.ExcludeRecommends) = false →
      planStep db fuel plan (.pkg (some pkg) opt) = .error e →
      (∀ q, e ≠ .notFound q) →
      planStep db (fuel + 1) plan (.group pkg added g0 (opt :: opts) rest) =
        .error (.failedToAdd pkg e)) ∧
    (∀ fuel plan pkg added g0 rest,
      planStep db (fuel + 1) plan (.group pkg added g0 [] rest) =
        .error (.unresolvedGroup g0)) ∧
    ((dbRec.MakeInstallationPlan 10 [qa5] { ExcludeRecommends := true }).map
      (fun p => p.Packages) = .ok [pkgC5, pkgA5] ∧
    (dbRec.MakeInstallationPlan 10 [qa5] {}).map
      (fun p => p.Packages) = .ok [pkgB5, pkgA5]) := by
  refine ⟨?_, ?_, ?_, ?_, ?_, rfl, rfl⟩
  · intro fuel plan pkg added g0 opt opts rest h1 h2
    simp [planStep, h1, h2]
  · intro fuel plan pkg added g0 opt opts rest p hskip hinst
    simp [planStep, hskip, hinst]
  · intro fuel plan pkg added g0 opt opts rest q hskip hnf
    simp [planStep, hskip, hnf]
  · intro fuel plan pkg added g0 opt opts rest e hskip hres hne
    simp only [planStep, hskip, Bool.false_eq_true, if_false]
    rw [hres]
    cases e
    case notFound q => exact absurd rfl (hne q)
    all_goals rfl
  · intro fuel plan pkg added g0 rest
    simp [planStep]

/-- Witness for C5 instantiating the skip clause and the unresolved-group
clause at a concrete plan. -/
theorem c5_group_semantics_witness :
    (planStep dbRec (3 + 1)
      (MakeIncrementalPlanner { ExcludeRecommends := true })
      (.group pkgA5 [pkgA5] [qbR5] [qbR5] []) =
      planStep dbRec 3
        (MakeIncrementalPlanner { ExcludeRecommends := true })
        (.group pkgA5 [pkgA5] [qbR5] [] [])) ∧
    (planStep dbRec (2 + 1)
      (MakeIncrementalPlanner { ExcludeRecommends := true })
      (.group pkgA5 [pkgA5] [qbR5] [] []) =
      .error (.unresolvedGroup [qbR5])) :=
  ⟨(c5_group_semantics dbRec).1 3 _ pkgA5 [pkgA5] [qbR5] qbR5 [] [] rfl rfl,
   (c5_group_semantics dbRec).2.2.2.2.1 2 _ pkgA5 [pkgA5] [qbR5] []⟩

/-! ## C6: the conflict check -/

theorem findConflictInGroup_some_iff (plan : InstallationPlan)
    (g : List PackageName) :
    (∃ c, findConflictInGroup plan g = some c) ↔
      ∃ opt ∈ g, ∃ ver, plan.checkName opt = some ver ∧
        versionMatches ver opt.Version = true := by
  induction g with
  | nil => simp [findConflictInGroup]
  | cons opt rest ih =>
    cases hc : plan.checkName opt with
    | none => simp [findConflictInGroup, hc, ih, List.mem_cons, exists_eq_or_imp]
    | some ver =>
      by_cases hv : versionMatches ver opt.Version = true
      · simp [findConflictInGroup, hc, hv, List.mem_cons, exists_eq_or_imp]
      · simp [findConflictInGroup, hc, hv, ih, List.mem_cons, exists_eq_or_imp]

theorem findConflict_some_iff (plan : InstallationPlan)
    (gs : List (List PackageName)) :
    (∃ c, findConflict plan gs = some c) ↔
      ∃ g ∈ gs, ∃ opt ∈ g, ∃ ver, plan.checkName opt = some ver ∧
        versionMatches ver opt.Version = true := by
  induction gs with
  | nil => simp [findConflict]
  | cons g rest ih =>
    cases hg : findConflictInGroup plan g with
    | some c =>
      constructor
      · intro _
        refine ⟨g, by simp, ?_⟩
        exact (findConflictInGroup_some_iff plan g).mp ⟨c, hg⟩
      · intro _
        exact ⟨c, by simp [findConflict, hg]⟩
    | none =>
      have hno : ¬∃ opt ∈ g, ∃ ver, plan.checkName opt = some ver ∧
          versionMatches ver opt.Version = true := by
        intro hcon
        obtain ⟨c, hc⟩ := (findConflictInGroup_some_iff plan g).mpr hcon
        rw [hg] at hc
        exact Option.noConfusion hc
      simp only [findConflict, hg]
      rw [ih]
      simp [List.mem_cons, exists_eq_or_imp, hno]

/-- The group and groups walks of `addPackage` never surface a bare
conflict error themselves: nested conflicts get wrapped (db.go:1234). -/
theorem planStep_group_no_conflict (db : PackageDatabase) :
    ∀ fuel plan call q c,
      (match call with
       | PlanCall.pkg _ _ => False
       | _ => True) →
      planStep db fuel plan call ≠ .error (.conflict q c) := by
  intro fuel
  induction fuel with
  | zero =>
    intro plan call q c _ h
    simp [planStep] at h
  | succ fuel ih =>
    intro plan call q c hcall h
    cases call with
    | pkg parent query => exact hcall
    | groups pkg added gs =>
      cases gs with
      | nil => simp [planStep] at h
      | cons g rest => exact ih plan (.group pkg added g g rest) q c trivial h
    | group pkg added g0 options rest =>
      cases options with
      | nil => simp [planStep] at h
      | cons opt opts =>
        cases hskip : (opt.Recommended && plan.queryOptions.ExcludeRecommends) with
        | true =>
          simp only [planStep, hskip, if_true] at h
          exact ih plan (.group pkg added g0 opts rest) q c trivial h
        | false =>
          simp only [planStep, hskip, Bool.false_eq_true, if_false] at h
          cases hres : planStep db fuel plan (.pkg (some pkg) opt) with
          | ok pr =>
            obtain ⟨na, plan2⟩ := pr
            rw [hres] at h
            exact ih plan2 (.groups pkg (added ++ na) rest) q c trivial h
          | error e =>
            rw [hres] at h
            cases e
            case notFound q2 =>
              exact ih plan (.group pkg added g0 opts rest) q c trivial h
            all_goals simp at h

/-- C6: when `addPackage` freshly installs a chosen package, it fails with
a conflict error exactly when some conflict option names a short name that
is present in the installed map right after the chosen package was recorded
under its own short name (and its installed version matches the option
predicate); the aliases are folded in only after that check succeeds, so
they never participate in it. -/
theorem c6_conflict_check (db : PackageDatabase) (fuel : Nat)
    (plan : InstallationPlan) (parent : Option Package) (query : PackageName)
    (results : List Package) (pkg : Package)
    (hni : plan.getInstalled query = none)
    (hs : db.Search query plan.queryOptions = .ok results)
    (hlen : results.length ≠ 0)
    (hpick : pickPackage plan.queryOptions query results = pkg) :
    ((∃ c, plan.addPackage db (fuel + 1) parent query =
        .error (.conflict query c)) ↔
      ∃ g ∈ pkg.Conflicts, ∃ opt ∈ g, ∃ ver,
        assocGet (assocPut plan.installed pkg.Name.ShortName pkg.Name.Version)
          opt.ShortName = some ver ∧
        versionMatches ver opt.Version = true) ∧
    (findConflict
        (({ plan with dependencyGraph :=
          plan.dependencyGraph ++ [Edge.mk parent pkg false] }).addName pkg
          pkg.Name) pkg.Conflicts = none →
      plan.addPackage db (fuel + 1) parent query =
        planStep db fuel
          (pkg.Aliases.foldl (fun p a => p.addName pkg a)
            (({ plan with dependencyGraph :=
              plan.dependencyGraph ++ [Edge.mk parent pkg false] }).addName pkg
              pkg.Name))
          (.groups pkg [pkg] pkg.Depends)) := by
  have hlen2 : (results.length == 0) = false := by simpa using hlen
  have hstep : plan.addPackage db (fuel + 1) parent query =
      (match findConflict
          (({ plan with dependencyGraph :=
            plan.dependencyGraph ++ [Edge.mk parent pkg false] }).addName pkg
            pkg.Name) pkg.Conflicts with
       | some opt => .error (.conflict query opt)
       | none =>
         planStep db fuel
           (pkg.Aliases.foldl (fun p a => p.addName pkg a)
             (({ plan with dependencyGraph :=
               plan.dependencyGraph ++ [Edge.mk parent pkg false] }).addName pkg
               pkg.Name))
           (.groups pkg [pkg] pkg.Depends)) := by
    simp [InstallationPlan.addPackage, planStep, hni, hs, hlen2, hpick]
  constructor
  · constructor
    · rintro ⟨c, hc⟩
      rw [hstep] at hc
      cases hfc : findConflict
          (({ plan with dependencyGraph :=
            plan.dependencyGraph ++ [Edge.mk parent pkg false] }).addName pkg
            pkg.Name) pkg.Conflicts with
      | some c0 =>
        have := (findConflict_some_iff
          (({ plan with dependencyGraph :=
            plan.dependencyGraph ++ [Edge.mk parent pkg false] }).addName pkg
            pkg.Name) pkg.Conflicts).mp ⟨c0, hfc⟩
        exact this
      | none =>
        rw [hfc] at hc
        exact absurd hc (planStep_group_no_conflict db fuel _ _ query c trivial)
    · intro hr
      have hr2 : ∃ g ∈ pkg.Conflicts, ∃ opt ∈ g, ∃ ver,
          (({ plan with dependencyGraph :=
            plan.dependencyGraph ++ [Edge.mk parent pkg false] }).addName pkg
            pkg.Name).checkName opt = some ver ∧
          versionMatches ver opt.Version = true := hr
      obtain ⟨c, hfc⟩ := (findConflict_some_iff
        (({ plan with dependencyGraph :=
          plan.dependencyGraph ++ [Edge.mk parent pkg false] }).addName pkg
          pkg.Name) pkg.Conflicts).mpr hr2
      refine ⟨c, ?_⟩
      rw [hstep, hfc]
  · intro hnone
    rw [hstep, hnone]

/-- Witness for C6 at the concrete conflict repository: `x` conflicts with
the installed `o`. -/
theorem c6_conflict_check_witness :
    ((∃ c, planConf.addPackage dbConf (3 + 1) none qx =
        .error (.conflict qx c)) ↔
      ∃ g ∈ pkgX.Conflicts, ∃ opt ∈ g, ∃ ver,
        assocGet (assocPut planConf.installed pkgX.Name.ShortName
          pkgX.Name.Version) opt.ShortName = some ver ∧
        versionMatches ver opt.Version = true) ∧
    (findConflict
        (({ planConf with dependencyGraph :=
          planConf.dependencyGraph ++ [Edge.mk none pkgX false] }).addName pkgX
          pkgX.Name) pkgX.Conflicts = none →
      planConf.addPackage dbConf (3 + 1) none qx =
        planStep dbConf 3
          (pkgX.Aliases.foldl (fun p a => p.addName pkgX a)
            (({ planConf with dependencyGraph :=
              planConf.dependencyGraph ++ [Edge.mk none pkgX false] }).addName
              pkgX pkgX.Name))
          (.groups pkgX [pkgX] pkgX.Depends)) :=
  c6_conflict_check dbConf 3 planConf none qx [pkgX] pkgX rfl rfl
    (by decide) rfl

/-! ## C2: ordering of the plan list -/

theorem liftEdgeOK (ps1 δ : List Package) (e : Edge) (h : EdgeOK ps1 e) :
    EdgeOK (ps1 ++ δ) e := by
  intro hvia p hpar
  obtain ⟨i, hi, hj⟩ := h hvia p hpar
  have hilt : i < ps1.length := by
    by_contra hge
    rw [List.get?_eq_none.mpr (Nat.le_of_not_lt hge)] at hi
    exact Option.noConfusion hi
  refine ⟨i, ?_, ?_⟩
  · rw [List.get?_append hilt]
    exact hi
  · intro j hjle
    rw [List.get?_append (lt_of_le_of_lt hjle hilt)]
    exact hj j hjle

theorem foldl_addName_Packages (pkg : Package) (as : List PackageName)
    (plan : InstallationPlan) :
    (as.foldl (fun p a => p.addName pkg a) plan).Packages = plan.Packages := by
  induction as generalizing plan with
  | nil => rfl
  | cons a rest ih =>
    simpa [List.foldl_cons, InstallationPlan.addName] using ih (plan.addName pkg a)

theorem foldl_addName_graph (pkg : Package) (as : List PackageName)
    (plan : InstallationPlan) :
    (as.foldl (fun p a => p.addName pkg a) plan).dependencyGraph =
      plan.dependencyGraph := by
  induction as generalizing plan with
  | nil => rfl
  | cons a rest ih =>
    simpa [List.foldl_cons, InstallationPlan.addName] using ih (plan.addName pkg a)

/-- The core ordering invariant of the planner recursion: a successful
`planStep` only appends to the package list and the dependency graph; when
the final list has no duplicates and the parent of a `.pkg` call has not
been appended, every newly recorded fresh edge (`viaInstalled = false`)
points to a child that appears before any occurrence of its parent; and the
group walks always end by appending the package they resolve. -/
theorem planStep_ordered (db : PackageDatabase) :
    ∀ fuel plan call added plan2,
      planStep db fuel plan call = .ok (added, plan2) →
      (∃ δ, plan2.Packages = plan.Packages ++ δ) ∧
      (∃ δg, plan2.dependencyGraph = plan.dependencyGraph ++ δg ∧
        (plan2.Packages.Nodup →
          (∀ p, (match call with
                 | PlanCall.pkg parent _ => parent = some p
                 | _ => False) → p ∉ plan2.Packages) →
          ∀ e ∈ δg, EdgeOK plan2.Packages e)) ∧
      (match call with
       | PlanCall.pkg _ _ => True
       | PlanCall.groups pkg _ _ =>
         ∃ δps, plan2.Packages = plan.Packages ++ δps ++ [pkg]
       | PlanCall.group pkg _ _ _ _ =>
         ∃ δps, plan2.Packages = plan.Packages ++ δps ++ [pkg]) := by
  intro fuel
  induction fuel with
  | zero =>
    intro plan call added plan2 h
    simp [planStep] at h
  | succ fuel ih =>
    intro plan call added plan2 h
    cases call with
    | pkg parent query =>
      simp only [planStep] at h
      cases hgi : plan.getInstalled query with
      | some ipkg =>
        simp only [hgi, Except.ok.injEq, Prod.mk.injEq] at h
        obtain ⟨hadded, hplan2⟩ := h
        subst hplan2
        refine ⟨⟨[], by simp⟩, ⟨[Edge.mk parent ipkg true], by simp, ?_⟩, trivial⟩
        intro hnd hparent e he hvia
        simp only [List.mem_singleton] at he
        subst he
        simp at hvia
      | none =>
        simp only [hgi] at h
        cases hsearch : db.Search query plan.queryOptions with
        | error err =>
          simp only [hsearch] at h
          simp at h
        | ok results =>
          simp only [hsearch] at h
          cases hlen : (results.length == 0) with
          | true =>
            simp only [hlen, if_true] at h
            simp at h
          | false =>
            simp only [hlen, Bool.false_eq_true, if_false] at h
            generalize hpkg : pickPackage plan.queryOptions query results = pkg at h
            cases hfc : findConflict
                (({ plan with dependencyGraph := plan.dependencyGraph ++
                  [Edge.mk parent pkg false] }).addName pkg pkg.Name)
                pkg.Conflicts with
            | some c =>
              simp only [hfc] at h
              simp at h
            | none =>
              simp only [hfc] at h
              obtain ⟨⟨δ, hδ⟩, ⟨δg, hδg, hedge⟩, hD⟩ :=
                ih _ (.groups pkg [pkg] pkg.Depends) added plan2 h
              rw [foldl_addName_Packages] at hδ
              rw [foldl_addName_graph] at hδg
              obtain ⟨δps, hδps⟩ := hD
              rw [foldl_addName_Packages] at hδps
              have hδ2 : plan2.Packages = plan.Packages ++ δ := hδ
              have hδg2 : plan2.dependencyGraph =
                  (plan.dependencyGraph ++ [Edge.mk parent pkg false]) ++ δg := hδg
              have hδps2 : plan2.Packages = plan.Packages ++ δps ++ [pkg] := hδps
              refine ⟨⟨δ, hδ2⟩, ⟨Edge.mk parent pkg false :: δg, ?_, ?_⟩, trivial⟩
              · rw [hδg2]
                simp
              · intro hnd hparent e he hvia p hpar
                rcases List.mem_cons.mp he with he0 | heg
                · subst he0
                  refine ⟨(plan.Packages ++ δps).length, ?_, ?_⟩
                  · rw [hδps2]
                    exact List.get?_concat_length _ _
                  · intro j hjle hcon
                    exact hparent p hpar (List.get?_mem hcon)
                · exact hedge hnd (fun p2 hp2 => hp2.elim) e heg hvia p hpar
    | groups pkg added0 gs =>
      cases gs with
      | nil =>
        simp only [planStep, Except.ok.injEq, Prod.mk.injEq] at h
        obtain ⟨hadded, hplan2⟩ := h
        subst hplan2
        refine ⟨⟨[pkg], by simp⟩, ⟨[], by simp, ?_⟩, ⟨[], by simp⟩⟩
        intro _ _ e he
        exact absurd he (List.not_mem_nil e)
      | cons g rest =>
        simp only [planStep] at h
        exact ih plan (.group pkg added0 g g rest) added plan2 h
    | group pkg added0 g0 options rest =>
      cases options with
      | nil =>
        simp [planStep] at h
      | cons opt opts =>
        simp only [planStep] at h
        cases hskip : (opt.Recommended && plan.queryOptions.ExcludeRecommends) with
        | true =>
          simp only [hskip, if_true] at h
          exact ih plan (.group pkg added0 g0 opts rest) added plan2 h
        | false =>
          simp only [hskip, Bool.false_eq_true, if_false] at h
          cases hres : planStep db fuel plan (.pkg (some pkg) opt) with
          | error e =>
            simp only [hres] at h
            cases e with
            | notFound q2 =>
              exact ih plan (.group pkg added0 g0 opts rest) added plan2 h
            | conflict q2 c2 => simp at h
            | unresolvedGroup g2 => simp at h
            | failedToAdd p2 e2 => simp at h
            | searchError m2 => simp at h
            | outOfFuel => simp at h
          | ok pr =>
            obtain ⟨na, plan2n⟩ := pr
            simp only [hres] at h
            obtain ⟨⟨δ2, hδ2⟩, ⟨δg2, hδg2, hedge2⟩, hD2⟩ :=
              ih plan2n (.groups pkg (added0 ++ na) rest) added plan2 h
            obtain ⟨⟨δ1, hδ1⟩, ⟨δg1, hδg1, hedge1⟩, _⟩ :=
              ih plan (.pkg (some pkg) opt) na plan2n hres
            obtain ⟨δps2, hδps2⟩ := hD2
            refine ⟨⟨δ1 ++ δ2, by rw [hδ2, hδ1, List.append_assoc]⟩,
              ⟨δg1 ++ δg2, by rw [hδg2, hδg1, List.append_assoc], ?_⟩,
              ⟨δ1 ++ δps2, by rw [hδps2, hδ1]; simp [List.append_assoc]⟩⟩
            intro hnd hvac e he hvia p hpar
            rcases List.mem_append.mp he with he1 | he2
            · have hsplit : plan2.Packages = plan2n.Packages ++ (δps2 ++ [pkg]) := by
                rw [hδps2]
                simp [List.append_assoc]
              have hndn : plan2n.Packages.Nodup := by
                rw [hsplit] at hnd
                exact (List.sublist_append_left _ _).nodup hnd
              have hpkg_not : pkg ∉ plan2n.Packages := by
                intro hmem
                rw [hsplit, List.nodup_append] at hnd
                exact hnd.2.2 hmem (by simp)
              have hparg : ∀ p2, some pkg = some p2 → p2 ∉ plan2n.Packages := by
                intro p2 hp2
                exact (Option.some.inj hp2) ▸ hpkg_not
              have hEOK := hedge1 hndn hparg e he1
              have hlift := liftEdgeOK plan2n.Packages (δps2 ++ [pkg]) e hEOK
              rw [← hsplit] at hlift
              exact hlift hvia p hpar
            · exact hedge2 hnd (fun p2 hp2 => hp2.elim) e he2 hvia p hpar

/-- The query loop preserves the invariant: relative to its starting plan,
all newly recorded fresh edges of a successful run are ordered. -/
theorem makeGo_ordered (db : PackageDatabase) (fuel : Nat) :
    ∀ queries plan0 plan,
      makeInstallationPlanGo db fuel plan0 queries = .ok plan →
      (∃ δ, plan.Packages = plan0.Packages ++ δ) ∧
      (∃ δg, plan.dependencyGraph = plan0.dependencyGraph ++ δg ∧
        (plan.Packages.Nodup → ∀ e ∈ δg, EdgeOK plan.Packages e)) := by
  intro queries
  induction queries with
  | nil =>
    intro plan0 plan h
    simp only [makeInstallationPlanGo, Except.ok.injEq] at h
    subst h
    exact ⟨⟨[], by simp⟩, ⟨[], by simp, fun _ e he => absurd he (List.not_mem_nil e)⟩⟩
  | cons q rest ih =>
    intro plan0 plan h
    simp only [makeInstallationPlanGo] at h
    cases hres : plan0.addPackage db fuel none q with
    | error e =>
      simp only [hres] at h
      simp at h
    | ok pr =>
      obtain ⟨na, plan1⟩ := pr
      simp only [hres] at h
      obtain ⟨⟨δ2, hδ2⟩, ⟨δg2, hδg2, hedge2⟩⟩ := ih plan1 plan h
      obtain ⟨⟨δ1, hδ1⟩, ⟨δg1, hδg1, hedge1⟩, _⟩ :=
        planStep_ordered db fuel plan0 (.pkg none q) na plan1 hres
      refine ⟨⟨δ1 ++ δ2, by rw [hδ2, hδ1, List.append_assoc]⟩,
        ⟨δg1 ++ δg2, by rw [hδg2, hδg1, List.append_assoc], ?_⟩⟩
      intro hnd e he
      rcases List.mem_append.mp he with he1 | he2
      · have hnd1 : plan1.Packages.Nodup := by
          rw [hδ2] at hnd
          exact (List.sublist_append_left _ _).nodup hnd
        have hEOK := hedge1 hnd1 (fun p2 hp2 => Option.noConfusion hp2) e he1
        have hlift := liftEdgeOK plan1.Packages δ2 e hEOK
        rw [← hδ2] at hlift
        exact hlift
      · exact hedge2 hnd e he2

/-- C2 (counterexample): with the cyclic repository (`a` and `b` depending
on each other) the planner succeeds, records the edge from `b` to its
chosen dependency `a` (through the already-installed short-circuit), yet
`a` first appears at index 1, after `b` at index 0 — the returned list is
not a topological sort of the dependency graph. -/
theorem c2_counterexample :
    (dbCyc.MakeInstallationPlan 10 [qa2] {}).map (fun p => p.Packages) =
      .ok [pkgB2, pkgA2] ∧
    (dbCyc.MakeInstallationPlan 10 [qa2] {}).map
      (fun p => p.dependencyGraph.contains (Edge.mk (some pkgB2) pkgA2 true)) =
      .ok true ∧
    (dbCyc.MakeInstallationPlan 10 [qa2] {}).map
      (fun p => (p.Packages.indexOf pkgA2, p.Packages.indexOf pkgB2)) =
      .ok (1, 0) ∧
    pkgA2 ≠ pkgB2 := by
  refine ⟨rfl, rfl, rfl, ?_⟩
  decide

/-- C2 (amended): for every plan the planner returns whose package list has
no duplicates (short-name uniqueness, the invariant the spec itself states),
every dependency edge recorded for a freshly installed package points to a
child that appears in the list strictly before any occurrence of its
dependent; only edges recorded through the already-installed short-circuit
(`viaInstalled`, the cycle case of the counterexample) may point forward. -/
theorem c2_fresh_topological (db : PackageDatabase) (fuel : Nat)
    (packages : List PackageName) (opts : QueryOptions)
    (plan : InstallationPlan)
    (h : db.MakeInstallationPlan fuel packages opts = .ok plan)
    (hnd : plan.Packages.Nodup) :
    ∀ e ∈ plan.dependencyGraph, EdgeOK plan.Packages e := by
  intro e he
  obtain ⟨_, ⟨δg, hδg, hedge⟩⟩ :=
    makeGo_ordered db fuel packages (MakeIncrementalPlanner opts) plan h
  apply hedge hnd
  rw [hδg] at he
  simpa [MakeIncrementalPlanner] using he

/-- Witness for C2 (amended) on the concrete recommends repository: the
fresh edge from `a` to its chosen dependency `b` is ordered. -/
theorem c2_fresh_topological_witness :
    EdgeOK planRecDef.Packages (Edge.mk (some pkgA5) pkgB5 false) :=
  c2_fresh_topological dbRec 10 [qa5] {} planRecDef rfl (by decide)
    (Edge.mk (some pkgA5) pkgB5 false) (by decide)

/-! ## C9: the serial fetch loop aborts on first failure -/

/-- C9 (counterexample): with a failing fetcher followed by a healthy one,
the serial fetch loop returns the wrapped fetch error and the healthy
fetcher never loads — contradicting the claim that one failure does not
prevent the remaining fetchers from loading and that only queries needing
the failed repository are affected. -/
theorem c9_counterexample :
    fetchAllSerialLoop [badFetcher, goodFetcher] [] =
      (some "failed to load bad: boom", []) :=
  rfl

/-- C9 (amended): in the serial loop, the first fetcher failure aborts
`FetchAll` with the wrapped fetch error; exactly the fetchers before the
failed one have loaded, and every fetcher after it is left unfetched. -/
theorem c9_serial_abort (pre : List FetcherSpec) (bad : FetcherSpec)
    (rest : List FetcherSpec) (e : String)
    (hpre : ∀ f ∈ pre, ∃ ps, f.result = .ok ps)
    (hbad : bad.result = .error e) :
    fetchAllSerialLoop (pre ++ bad :: rest) [] =
      (some ("failed to load " ++ bad.Key ++ ": " ++ e),
        pre.map (fun f => f.Key)) := by
  have gen : ∀ pre2 acc, (∀ f ∈ pre2, ∃ ps, f.result = .ok ps) →
      fetchAllSerialLoop (pre2 ++ bad :: rest) acc =
        (some ("failed to load " ++ bad.Key ++ ": " ++ e),
          acc ++ pre2.map (fun f => f.Key)) := by
    intro pre2
    induction pre2 with
    | nil =>
      intro acc _
      simp [fetchAllSerialLoop, hbad]
    | cons f fs ih =>
      intro acc hall
      obtain ⟨ps, hf⟩ := hall f (by simp)
      have ih2 := ih (acc ++ [f.Key]) fun g hg => hall g (by simp [hg])
      simp only [List.cons_append, fetchAllSerialLoop, hf]
      exact ih2.trans (by simp)
  simpa using gen pre [] hpre

/-- Witness for C9 (amended): one healthy fetcher, the failing one, then
another healthy fetcher that stays unfetched. -/
theorem c9_serial_abort_witness :
    fetchAllSerialLoop [goodFetcher, badFetcher, goodFetcher] [] =
      (some ("failed to load " ++ badFetcher.Key ++ ": " ++ "boom"),
        [goodFetcher].map (fun f => f.Key)) :=
  c9_serial_abort [goodFetcher] badFetcher [goodFetcher] "boom"
    (by
      intro f hf
      simp only [List.mem_singleton] at hf
      subst hf
      exact ⟨[], rfl⟩)
    rfl

end Db

namespace Filesystem

/-! ## C7: overwrite semantics of the virtual directory tree -/

/-- C7 (counterexample): writes do NOT follow last-write-wins.  Extracting
an archive entry `a` with body `X` and then creating `a` again with body
`Y` leaves the tree unchanged — `Create` returns success without replacing
(directory.go:274-276) — and reading `a` yields the FIRST content `X`. -/
theorem c7_counterexample :
    ExtractEntry 10 { Typeflag := .regular, Name := "a", content := "X" }
      NewMemoryDirectory =
      .ok (.dir ["a"] [("a", .regular "X" {})] { mode := 493 }) ∧
    CreateChild 10 (.dir ["a"] [("a", .regular "X" {})] { mode := 493 }) "a"
      (.regular "Y" {}) =
      .ok (.dir ["a"] [("a", .regular "X" {})] { mode := 493 }) ∧
    OpenPath 10 (.dir ["a"] [("a", .regular "X" {})] { mode := 493 }) "a" =
      .ok (.regular "X" {}) ∧
    ("X" : String) ≠ "Y" := by
  refine ⟨rfl, rfl, rfl, by decide⟩

/-- C7 (amended): `memoryDirectory.Create` is first-write-wins: a create at
an occupied name reports success and leaves the directory unchanged, while
a create at a free name appends the entry. -/
theorem c7_create_first_write_wins (names : List String)
    (entries : List (String × MemFile)) (meta : FileMeta) (name : String)
    (f : MemFile) (hn1 : name ≠ "") (hn2 : name ≠ ".")
    (hn3 : hasSlash name = false) :
    ((assocGet entries name).isSome = true →
      memCreate (.dir names entries meta) name f =
        .ok (.dir names entries meta)) ∧
    (assocGet entries name = none →
      memCreate (.dir names entries meta) name f =
        .ok (.dir (names ++ [name]) (entries ++ [(name, f)]) meta)) := by
  constructor <;> intro h <;> simp [memCreate, hn1, hn2, hn3, h]

/-- Witness for C7 (amended) at a concrete occupied and free name. -/
theorem c7_create_first_write_wins_witness :
    ((assocGet [("a", MemFile.regular "X" {})] "a").isSome = true →
      memCreate (.dir ["a"] [("a", MemFile.regular "X" {})] { mode := 493 })
        "a" (.regular "Y" {}) =
        .ok (.dir ["a"] [("a", MemFile.regular "X" {})] { mode := 493 })) ∧
    (assocGet [("a", MemFile.regular "X" {})] "a" = none →
      memCreate (.dir ["a"] [("a", MemFile.regular "X" {})] { mode := 493 })
        "a" (.regular "Y" {}) =
        .ok (.dir (["a"] ++ ["a"])
          ([("a", MemFile.regular "X" {})] ++ [("a", MemFile.regular "Y" {})])
          { mode := 493 })) :=
  c7_create_first_write_wins ["a"] [("a", MemFile.regular "X" {})]
    { mode := 493 } "a" (.regular "Y" {}) (by decide) (by decide) rfl

end Filesystem

namespace Database

/-! ## C8: no re-hash check on reconstructed definitions -/

/-- C8 (counterexample): a `.def` file that decodes successfully but whose
re-encoded form hashes to a different value than the filename is returned
as a valid definition — no corrupt-store error is raised. -/
theorem c8_counterexample :
    GetDefinitionByHash codecConst "b" defStateBad "h1" = .ok "D" ∧
    codecConst.HashDefinition "D" ≠ "h1" := by
  refine ⟨rfl, by decide⟩

/-- C8 (amended): `GetDefinitionByHash` on a hash missing from the
in-memory database returns ANY successfully decoded `.def` file as a valid
definition, even when its re-encoded form does not hash to the filename;
the corrupt-store rejection the spec requires is absent. -/
theorem c8_no_rehash_check (codec : DefCodec) (buildDir : String)
    (st : DefState) (hash contents d : String)
    (h1 : assocGet st.defDb hash = none)
    (h2 : st.fs.lookup (buildDir ++ "/" ++ hash ++ ".def") = some contents)
    (h3 : codec.UnmarshalDefinition contents = .ok d)
    (h4 : codec.HashDefinition d ≠ hash) :
    GetDefinitionByHash codec buildDir st hash = .ok d := by
  simp [GetDefinitionByHash, h1, h2, h3]

/-- Witness for C8 (amended) at the concrete mismatching store. -/
theorem c8_no_rehash_check_witness :
    GetDefinitionByHash codecConst "b" defStateBad "h1" = .ok "D" :=
  c8_no_rehash_check codecConst "b" defStateBad "h1" "raw" "D" rfl rfl rfl
    (by decide)

end Database

end TinyRange
